import Mathlib

/-!
# Verification of the order reconciliation and ticketing core

Shallow embedding of `backend/src/routes/orders.js` (digital-table-backend)
together with the order document schema of `backend/src/models/Order.js`.

Modelling conventions:
* JavaScript numbers used for money are modelled as exact rationals (`Rat`);
  `Math.round(x * 100) / 100` becomes `round2` (round half up, once).
* Quantities are `Nat` (the route validates `quantity >= 1`).
* Mongo ObjectIds are modelled as `Nat`.  Ids that Mongo would assign on
  `save()` (lines created without an `_id`) are drawn from a counter that is
  threaded through the computation; no claim depends on the value of a fresh
  id, only on which lines keep their old id.
* A JavaScript `Map` is modelled as an insertion-ordered association list:
  `set` of a fresh key appends, `set` of a present key updates in place, and
  `forEach` iterates in insertion order, exactly as in V8.
* `JSON.stringify((addons || []).sort())` canonicalizes the addon list: the
  default `sort()` comparator orders by the `String(...)` conversion of each
  element ("[object Object]" for `{name, price}` objects, the name itself for
  legacy string addons) and is stable; equality of the stringified result is
  modelled as structural equality of the canonicalized list.
* Wall-clock timestamps (`new Date()`) are omitted from change events and
  tickets; no claim mentions them.
-/

/-- Item-level status (`orderItemSchema.status` enum). -/
inductive ItemStatus
  | pending
  | preparing
  | ready
  | served
  | cancelled
deriving DecidableEq, Repr, BEq

/-- Order-level status (`orderSchema.status` enum). -/
inductive OrderStatus
  | pending
  | preparing
  | ready
  | served
  | paid
  | cancelled
deriving DecidableEq, Repr, BEq

/-- `updateHistorySchema.changeType` enum. -/
inductive ChangeType
  | item_added
  | item_removed
  | quantity_increased
  | quantity_decreased
  | item_modified
deriving DecidableEq, Repr, BEq

/-- `updateHistorySchema.changedBy` enum. -/
inductive Actor
  | customer
  | staff
deriving DecidableEq, Repr, BEq

/-- An addon: either the legacy plain-string form (no price) or the object
form `{ name, price }` used by `calculateAddonPrice`. -/
inductive Addon
  | legacy (name : String)
  | priced (name : String) (price : Rat)
deriving DecidableEq, Repr, BEq

namespace Addon

/-- The `String(x)` conversion used by the default `Array.prototype.sort`
comparator: objects become "[object Object]", strings are themselves. -/
def jsString : Addon → String
  | .legacy n => n
  | .priced _ _ => "[object Object]"

/-- The addon's price contribution in `calculateAddonPrice`:
`addon.price || 0` for objects, `0` for legacy strings. -/
def priceOf : Addon → Rat
  | .legacy _ => 0
  | .priced _ p => p

end Addon

/-- Code-unit comparison of strings as performed by the default JS sort
comparator (`<` on the UTF-16 string values; on BMP text this agrees with
comparing Unicode code points). -/
def charListLe : List Char → List Char → Bool
  | [], _ => true
  | _ :: _, [] => false
  | a :: as, b :: bs =>
    if a.val < b.val then true
    else if b.val < a.val then false
    else charListLe as bs

def strLe (a b : String) : Bool := charListLe a.data b.data

/-- Stable insertion of `x` in front of the first element it is `≤`;
`foldr insertAddon []` is the stable ascending sort that
`Array.prototype.sort` (TimSort) produces for this comparator. -/
def insertAddon (x : Addon) : List Addon → List Addon
  | [] => [x]
  | y :: ys =>
    if strLe x.jsString y.jsString then x :: y :: ys
    else y :: insertAddon x ys

/-- `(addons || []).sort()` under the default comparator. -/
def canonAddons (as : List Addon) : List Addon := as.foldr insertAddon []

/-- The reconciliation identity key
`` `${item.menuItemId}-${JSON.stringify((item.addons || []).sort())}` ``. -/
abbrev Key := Nat × List Addon

def keyOfAddons (menuItemId : Nat) (addons : List Addon) : Key :=
  (menuItemId, canonAddons addons)

/-- A catalog menu item as used via `menuItemMap` (only the fields the
reconciliation reads: `_id`, `name`, `price`). -/
structure MenuItemRec where
  id : Nat
  name : String
  price : Rat
deriving DecidableEq, Repr

/-- One line of `order.items` (`orderItemSchema`). -/
structure OrderItem where
  id : Nat
  menuItemId : Nat
  name : String
  price : Rat
  quantity : Nat
  addons : List Addon
  specialInstructions : String
  isNew : Bool
  isRemoved : Bool
  status : ItemStatus
deriving DecidableEq, Repr

/-- One element of the submitted `items` array of a create/update request. -/
structure SubmittedItem where
  menuItemId : Nat
  quantity : Nat
  addons : List Addon
  specialInstructions : String
deriving DecidableEq, Repr

def keyOfItem (i : OrderItem) : Key := keyOfAddons i.menuItemId i.addons

def keyOfSub (s : SubmittedItem) : Key := keyOfAddons s.menuItemId s.addons

/-- One entry of `order.updateHistory` (`updateHistorySchema`), minus the
wall-clock timestamp. -/
structure ChangeEvent where
  changeType : ChangeType
  itemName : String
  oldQuantity : Option Nat
  newQuantity : Option Nat
  changedBy : Actor
  details : String
deriving DecidableEq, Repr

/-- One printed line of a KOT (`order.kots[].items[]`). -/
structure KotItem where
  itemId : Nat
  name : String
  quantity : Int
  addons : List Addon
  specialInstructions : String
deriving DecidableEq, Repr

/-- One kitchen ticket (`order.kots[]`), minus `printedAt`/`printedBy`. -/
structure Kot where
  kotNumber : Nat
  items : List KotItem
deriving DecidableEq, Repr

/-- The order document fields touched by the claims. -/
structure Order where
  items : List OrderItem
  status : OrderStatus
  totalPrice : Rat
  isUpdated : Bool
  updateCount : Nat
  originalItems : List OrderItem
  updateHistory : List ChangeEvent
  kots : List Kot
  batchStatus : List (String × OrderStatus)
  hasUnseenChanges : Bool
deriving DecidableEq, Repr

/-! ## Pricing Calculator -/

/-- `calculateAddonPrice(addons, quantity)`: the reduce over `addon.price`
(objects) / `0` (legacy strings), multiplied by the quantity. -/
def calculateAddonPrice (addons : List Addon) (quantity : Nat) : Rat :=
  (addons.foldl (fun sum a => sum + a.priceOf) 0) * quantity

/-- Per-line price as summed by both the create route and both
reconciliation policies: `item.price * item.quantity + calculateAddonPrice`. -/
def linePrice (i : OrderItem) : Rat :=
  i.price * i.quantity + calculateAddonPrice i.addons i.quantity

def sumPrices (l : List OrderItem) : Rat := (l.map linePrice).sum

/-- `Math.round(x * 100) / 100`: JS `Math.round` is `⌊t + 1/2⌋`
(round half up). -/
def round2 (x : Rat) : Rat := ((⌊x * 100 + 1/2⌋ : Int) : Rat) / 100

def sumQty (l : List OrderItem) : Nat := (l.map (·.quantity)).sum

/-- Desired quantity of a key: the sum over all submitted items with that
key (`incomingMap` accumulates duplicates). -/
def subSumQty (K : Key) (subs : List SubmittedItem) : Nat :=
  ((subs.filter (fun s => decide (keyOfSub s = K))).map (·.quantity)).sum

/-! ## Association lists standing in for JS `Map`s -/

def lookupKey {α β : Type} [DecidableEq α] (m : List (α × β)) (k : α) :
    Option β :=
  match m with
  | [] => none
  | (k', v) :: rest => if k' = k then some v else lookupKey rest k

/-- `Map.set`: update in place if present, else append. -/
def setAssoc {α β : Type} [DecidableEq α] (m : List (α × β)) (k : α) (v : β) :
    List (α × β) :=
  match m with
  | [] => [(k, v)]
  | (k', v') :: rest =>
    if k' = k then (k, v) :: rest else (k', v') :: setAssoc rest k v

/-! ## Staff reconciliation ("Smart Reconciliation", orders.js 471-652)

The staff branch of `PATCH /:orderId/update` groups the incoming submission
into `incomingMap : Map<Key, {qty, data}>` (quantities of duplicate keys are
summed, `data` is the first submitted item of the key), groups the current
non-removed lines into `existingMap : Map<Key, Item[]>`, and then processes
each incoming key in insertion order. -/

/-- One `incomingMap` step: `qty += item.quantity` if the key is present,
else a fresh entry `(key, (item.quantity, item))` is appended. -/
def addIncoming (m : List (Key × Nat × SubmittedItem)) (s : SubmittedItem) :
    List (Key × Nat × SubmittedItem) :=
  match m with
  | [] => [(keyOfSub s, s.quantity, s)]
  | (k, q, d) :: rest =>
    if k = keyOfSub s then (k, q + s.quantity, d) :: rest
    else (k, q, d) :: addIncoming rest s

def groupIncoming (subs : List SubmittedItem) :
    List (Key × Nat × SubmittedItem) :=
  subs.foldl addIncoming []

/-- One `existingMap` step: push the item onto its key's list (appending a
fresh entry if the key is new). -/
def addExisting (m : List (Key × List OrderItem)) (i : OrderItem) :
    List (Key × List OrderItem) :=
  match m with
  | [] => [(keyOfItem i, [i])]
  | (k, l) :: rest =>
    if k = keyOfItem i then (k, l ++ [i]) :: rest
    else (k, l) :: addExisting rest i

def groupExisting (items : List OrderItem) : List (Key × List OrderItem) :=
  items.foldl addExisting []

/-- `statusPriority` (orders.js 595): cheapest-to-cancel first. -/
def statusPriority : ItemStatus → Nat
  | .pending => 0
  | .preparing => 1
  | .ready => 2
  | .served => 3
  | .cancelled => 4

/-- The comparator `(a, b) => statusPriority[a.status] - statusPriority[b.status]`
as a `≤` relation; `List.insertionSort` with this relation is the stable
ascending sort TimSort produces. -/
def prioLe (a b : OrderItem) : Prop :=
  statusPriority a.status ≤ statusPriority b.status

instance : DecidableRel prioLe := fun a b =>
  inferInstanceAs (Decidable (statusPriority a.status ≤ statusPriority b.status))

def sortByPriority (l : List OrderItem) : List OrderItem :=
  l.insertionSort prioLe

instance : IsTotal OrderItem prioLe :=
  ⟨fun a b => Nat.le_total (statusPriority a.status) (statusPriority b.status)⟩

instance : IsTrans OrderItem prioLe :=
  ⟨fun _ _ _ hab hbc => Nat.le_trans hab hbc⟩

/-- The mutable-`amountToRemove` loop of Case C (orders.js 601-629): keep
lines once the deficit is exhausted, reduce one line in place, and retain
fully consumed lines flagged `isRemoved` at their original quantity. -/
def removeFromSorted : Nat → List OrderItem → List OrderItem
  | _, [] => []
  | amt, i :: rest =>
    if amt = 0 then i :: removeFromSorted 0 rest
    else if amt < i.quantity then
      { i with quantity := i.quantity - amt } :: removeFromSorted 0 rest
    else
      { i with isRemoved := true, isNew := false } ::
        removeFromSorted (amt - i.quantity) rest

/-- The new pending line created by Case B (orders.js 540-550). -/
def mkNewStaffItem (nid : Nat) (menu : Nat → MenuItemRec)
    (data : SubmittedItem) (qty : Nat) : OrderItem :=
  let m := menu data.menuItemId
  { id := nid
    menuItemId := m.id
    name := m.name
    price := m.price
    quantity := qty
    addons := data.addons
    specialInstructions := data.specialInstructions
    isNew := true
    isRemoved := false
    status := .pending }

def addedEvent (name : String) (qty : Nat) (by_ : Actor) : ChangeEvent :=
  { changeType := .item_added
    itemName := name
    oldQuantity := none
    newQuantity := some qty
    changedBy := by_
    details := "Added " ++ toString qty ++ "x " ++ name }

def staffIncreasedEvent (name : String) (oldQ newQ : Nat) (by_ : Actor) :
    ChangeEvent :=
  { changeType := .quantity_increased
    itemName := name
    oldQuantity := some oldQ
    newQuantity := some newQ
    changedBy := by_
    details := name ++ ": increased from " ++ toString oldQ ++ " to " ++
      toString newQ }

def staffDecreasedEvent (name : String) (oldQ newQ : Nat) (by_ : Actor) :
    ChangeEvent :=
  { changeType := .quantity_decreased
    itemName := name
    oldQuantity := some oldQ
    newQuantity := some newQ
    changedBy := by_
    details := name ++ ": decreased from " ++ toString oldQ ++ " to " ++
      toString newQ }

/-- The body of `incomingMap.forEach` (orders.js 514-631), acting on the
accumulated `(newOrderItems, currentUpdateHistory, next fresh id)`. -/
def processEntry (menu : Nat → MenuItemRec)
    (existingMap : List (Key × List OrderItem))
    (st : List OrderItem × List ChangeEvent × Nat)
    (entry : Key × Nat × SubmittedItem) :
    List OrderItem × List ChangeEvent × Nat :=
  let (acc, evs, nid) := st
  let (key, desiredQty, data) := entry
  let m := menu data.menuItemId
  let existingList := (lookupKey existingMap key).getD []
  let existingTotalQty := sumQty existingList
  if desiredQty = existingTotalQty then
    (acc ++ existingList, evs, nid)
  else if existingTotalQty < desiredQty then
    let diff := desiredQty - existingTotalQty
    let ev :=
      if existingTotalQty = 0 then addedEvent m.name desiredQty .staff
      else staffIncreasedEvent m.name existingTotalQty desiredQty .staff
    (acc ++ existingList ++ [mkNewStaffItem nid menu data diff],
      evs ++ [ev], nid + 1)
  else
    let amountToRemove := existingTotalQty - desiredQty
    let ev := staffDecreasedEvent m.name existingTotalQty desiredQty .staff
    (acc ++ removeFromSorted amountToRemove (sortByPriority existingList),
      evs ++ [ev], nid)

/-- Reconciliation result: new item list, change log, raw (pre-rounding)
price total, and the next fresh id. -/
structure ReconResult where
  items : List OrderItem
  events : List ChangeEvent
  rawTotal : Rat
  nextId : Nat
deriving DecidableEq, Repr

/-- Staff-policy reconciliation.  Keys present in `existingMap` but absent
from `incomingMap` are not processed: the `existingMap.forEach` at
orders.js 636-643 only logs and pushes nothing, so those lines do not reach
`newOrderItems`.  The staff total (orders.js 645-650) sums over all of
`newOrderItems`, including lines flagged `isRemoved`. -/
def staffReconcile (menu : Nat → MenuItemRec) (oldItems : List OrderItem)
    (subs : List SubmittedItem) (startId : Nat) : ReconResult :=
  let r := (groupIncoming subs).foldl
    (processEntry menu (groupExisting oldItems)) ([], [], startId)
  { items := r.1
    events := r.2.1
    rawTotal := sumPrices r.1
    nextId := r.2.2 }

/-! ## Customer reconciliation (orders.js 654-788)

The customer branch consolidates the submission to one line per key
(`consolidatedMap`), preserving `_id` and `status` of the *last* existing
line with the key (`existingItemsMap.set` overwrites duplicates), then walks
the consolidated list logging changes against the *first* matching old line
(`oldItems.find`), and finally appends an `isRemoved` copy (without `_id`,
so Mongo assigns a fresh one, and without `status`, so the schema default
`pending` applies) for every old line whose key vanished. -/

/-- `existingItemsMap` (orders.js 660-665): last write wins per key. -/
def buildExistingItemsMap (oldItems : List OrderItem) :
    List (Key × OrderItem) :=
  oldItems.foldl (fun m i => setAssoc m (keyOfItem i) i) []

/-- `existing.quantity += item.quantity` for an already-consolidated key. -/
def bumpQty (m : List (Key × OrderItem)) (k : Key) (q : Nat) :
    List (Key × OrderItem) :=
  match m with
  | [] => []
  | (k', v) :: rest =>
    if k' = k then (k', { v with quantity := v.quantity + q }) :: rest
    else (k', v) :: bumpQty rest k q

/-- One `items.forEach` step of the consolidation (orders.js 667-695). -/
def consolidateStep (menu : Nat → MenuItemRec)
    (existingItemsMap : List (Key × OrderItem))
    (st : List (Key × OrderItem) × Nat) (s : SubmittedItem) :
    List (Key × OrderItem) × Nat :=
  let (m, nid) := st
  let key := keyOfSub s
  match lookupKey m key with
  | some _ => (bumpQty m key s.quantity, nid)
  | none =>
    let mi := menu s.menuItemId
    match lookupKey existingItemsMap key with
    | some e =>
      (m ++ [(key,
        { id := e.id
          menuItemId := mi.id
          name := mi.name
          price := mi.price
          quantity := s.quantity
          addons := s.addons
          specialInstructions := s.specialInstructions
          isNew := false
          isRemoved := false
          status := e.status })], nid)
    | none =>
      (m ++ [(key,
        { id := nid
          menuItemId := mi.id
          name := mi.name
          price := mi.price
          quantity := s.quantity
          addons := s.addons
          specialInstructions := s.specialInstructions
          isNew := false
          isRemoved := false
          status := .pending })], nid + 1)

def consolidate (menu : Nat → MenuItemRec)
    (existingItemsMap : List (Key × OrderItem))
    (subs : List SubmittedItem) (startId : Nat) :
    List (Key × OrderItem) × Nat :=
  subs.foldl (consolidateStep menu existingItemsMap) ([], startId)

def customerIncreasedEvent (name : String) (oldQ newQ : Nat) (by_ : Actor) :
    ChangeEvent :=
  { changeType := .quantity_increased
    itemName := name
    oldQuantity := some oldQ
    newQuantity := some newQ
    changedBy := by_
    details := "Increased from " ++ toString oldQ ++ " to " ++ toString newQ }

def customerDecreasedEvent (name : String) (oldQ newQ : Nat) (by_ : Actor) :
    ChangeEvent :=
  { changeType := .quantity_decreased
    itemName := name
    oldQuantity := some oldQ
    newQuantity := some newQ
    changedBy := by_
    details := "Decreased from " ++ toString oldQ ++ " to " ++ toString newQ }

def removedEvent (name : String) (qty : Nat) (by_ : Actor) : ChangeEvent :=
  { changeType := .item_removed
    itemName := name
    oldQuantity := some qty
    newQuantity := none
    changedBy := by_
    details := "Removed " ++ toString qty ++ "x " ++ name }

/-- The change-log pass (orders.js 714-755): compare each consolidated line
against the first old line with the same key, flipping `isNew` on additions
and increases. -/
def logCustomerChange (oldItems : List OrderItem) (by_ : Actor)
    (item : OrderItem) : OrderItem × List ChangeEvent :=
  match oldItems.find? (fun o => decide (keyOfItem o = keyOfItem item)) with
  | none =>
    ({ item with isNew := true }, [addedEvent item.name item.quantity by_])
  | some o =>
    if o.quantity < item.quantity then
      ({ item with isNew := true },
        [customerIncreasedEvent item.name o.quantity item.quantity by_])
    else if item.quantity < o.quantity then
      (item, [customerDecreasedEvent item.name o.quantity item.quantity by_])
    else (item, [])

/-- The removed-detection pass (orders.js 757-787).  It searches the
*growing* `newOrderItems` array, so a second old line with the same vanished
key finds the just-appended removed copy and is not appended again. -/
def removedStep (by_ : Actor)
    (st : List OrderItem × List ChangeEvent × Nat) (o : OrderItem) :
    List OrderItem × List ChangeEvent × Nat :=
  let (ns, evs, nid) := st
  if (ns.find? (fun i => decide (keyOfItem i = keyOfItem o))).isSome then st
  else
    (ns ++ [{ id := nid
              menuItemId := o.menuItemId
              name := o.name
              price := o.price
              quantity := o.quantity
              addons := o.addons
              specialInstructions := o.specialInstructions
              isNew := false
              isRemoved := true
              status := .pending }],
      evs ++ [removedEvent o.name o.quantity by_], nid + 1)

/-- Customer-policy reconciliation.  The price total (orders.js 699-712) is
computed over the consolidated list, before removed copies are appended. -/
def customerReconcile (menu : Nat → MenuItemRec) (oldItems : List OrderItem)
    (subs : List SubmittedItem) (startId : Nat) : ReconResult :=
  let c := consolidate menu (buildExistingItemsMap oldItems) subs startId
  let consItems := c.1.map (·.2)
  let logged := consItems.map (logCustomerChange oldItems .customer)
  let f := oldItems.foldl (removedStep .customer)
    (logged.map (·.1), (logged.map (·.2)).flatten, c.2)
  { items := f.1
    events := f.2.1
    rawTotal := sumPrices consItems
    nextId := f.2.2 }

/-! ## The update route (orders.js 360-905) -/

/-- Dispatch on the actor, as `isStaffEdit` does. -/
def reconcile (menu : Nat → MenuItemRec) (isStaffEdit : Bool)
    (oldItems : List OrderItem) (subs : List SubmittedItem)
    (startId : Nat) : ReconResult :=
  if isStaffEdit then staffReconcile menu oldItems subs startId
  else customerReconcile menu oldItems subs startId

inductive UpdateError
  | emptyItems
  | terminalState (s : OrderStatus)
  | invalidQuantity
deriving DecidableEq, Repr

/-- `['item_added', 'quantity_increased'].includes(h.changeType)` over the
current edit's change log (orders.js 810-812). -/
def hasNewWork (evs : List ChangeEvent) : Bool :=
  evs.any (fun e =>
    decide (e.changeType = .item_added) ||
    decide (e.changeType = .quantity_increased))

/-- The bookkeeping epilogue of the update route (orders.js 793-832):
item/total/counter writes, then — only when the edit produced change
events — history append, `hasUnseenChanges`, the reopening rule, and the
`update-N` batch entry. -/
def applyEditBookkeeping (order : Order) (r : ReconResult) : Order :=
  let updateCount' := order.updateCount + 1
  let base : Order :=
    { order with
      items := r.items
      totalPrice := round2 r.rawTotal
      isUpdated := true
      updateCount := updateCount' }
  if r.events.isEmpty then base
  else
    let status' :=
      if hasNewWork r.events &&
          (decide (order.status = .served) || decide (order.status = .ready) ||
            decide (order.status = .preparing)) then
        OrderStatus.pending
      else order.status
    -- `if (order.updateCount === 0)` after the increment: never taken.
    let batch0 :=
      if updateCount' = 0 then setAssoc order.batchStatus "original" status'
      else order.batchStatus
    let batch' := setAssoc batch0 ("update-" ++ toString updateCount') status'
    { base with
      updateHistory := order.updateHistory ++ r.events
      hasUnseenChanges := true
      status := status'
      batchStatus := batch' }

/-- The successful path of the update route: snapshot `originalItems` on the
first-ever edit (guarded by `isUpdated`), reconcile against the non-removed
lines, and apply the bookkeeping epilogue. -/
def applyEdit (menu : Nat → MenuItemRec) (isStaffEdit : Bool)
    (subs : List SubmittedItem) (startId : Nat) (order : Order) : Order :=
  applyEditBookkeeping
    { order with
      originalItems :=
        if order.isUpdated then order.originalItems
        else order.items.map (fun i => { i with isNew := false, isRemoved := false }) }
    (reconcile menu isStaffEdit (order.items.filter (fun i => !i.isRemoved))
      subs startId)

/-- `PATCH /:orderId/update`: validation guards in route order (empty item
list, terminal state, invalid quantity), then the reconciliation and its
epilogue.  `startId` stands for the ids Mongo assigns on save to lines
created without an `_id`. -/
def updateOrder (menu : Nat → MenuItemRec) (isStaffEdit : Bool)
    (subs : List SubmittedItem) (startId : Nat) (order : Order) :
    Except UpdateError Order :=
  if subs.isEmpty then .error .emptyItems
  else if order.status = .paid ∨ order.status = .cancelled then
    .error (.terminalState order.status)
  else if subs.any (fun s => decide (s.quantity = 0)) then
    .error .invalidQuantity
  else .ok (applyEdit menu isStaffEdit subs startId order)

/-! ## Status and payment routes -/

/-- `PATCH /:orderId/status` (orders.js 1528-1639).  With a batch selection
it sets each named batch, syncing `order.status` only when all batch values
converge; with no selection it overwrites status and collapses
`batchStatus` to the single key `all`.  There is no terminal-state or
transition guard: any valid status is applied to any order. -/
def setOrderStatus (status : OrderStatus) (batchIds : List String)
    (order : Order) : Order :=
  if batchIds.isEmpty then
    { order with status := status, batchStatus := [("all", status)] }
  else
    let batch' := batchIds.foldl
      (fun m b => if b = "" then m else setAssoc m b status)
      order.batchStatus
    let allSame :=
      match batch'.map (·.2) with
      | [] => false
      | v :: rest => rest.all (fun w => decide (w = v))
    if allSame then { order with batchStatus := batch', status := status }
    else { order with batchStatus := batch' }

inductive PaymentError
  | notServed (s : OrderStatus)
deriving DecidableEq, Repr

/-- `PATCH /:orderId/payment` (orders.js 1868-1949): only `served` orders
can be marked `paid`. -/
def recordPayment (order : Order) : Except PaymentError Order :=
  if order.status = .served then .ok { order with status := .paid }
  else .error (.notServed order.status)

/-! ## Ticket (KOT) generator (orders.js 928-1043) -/

/-- `printedQtyByItemId` (orders.js 965-974): quantity already printed for a
line id, summed over every prior ticket. -/
def printedQty (kots : List Kot) (id : Nat) : Int :=
  (kots.map (fun k =>
    ((k.items.filter (fun e => decide (e.itemId = id))).map (·.quantity)).sum)).sum

/-- One step of the `order.items.forEach` at orders.js 976-991: skip
removed lines, else print the positive remaining quantity. -/
def lineToPrint (kots : List Kot) (i : OrderItem) : Option KotItem :=
  if i.isRemoved then none
  else
    let remaining : Int := (i.quantity : Int) - printedQty kots i.id
    if 0 < remaining then
      some { itemId := i.id
             name := i.name
             quantity := remaining
             addons := i.addons
             specialInstructions := i.specialInstructions }
    else none

/-- `itemsToPrint` (orders.js 976-991): non-removed lines with positive
remaining quantity, printed at the remaining quantity. -/
def itemsToPrint (order : Order) : List KotItem :=
  order.items.filterMap (lineToPrint order.kots)

/-- `POST /:orderId/print-kot`: `none` models the "No new items to print"
no-op response (nothing is saved); otherwise the new ticket is appended with
`kotNumber = order.kots.length + 1`. -/
def generateTicket (order : Order) : Option Kot × Order :=
  let toPrint := itemsToPrint order
  if toPrint.isEmpty then (none, order)
  else
    let newKot : Kot := { kotNumber := order.kots.length + 1, items := toPrint }
    (some newKot, { order with kots := order.kots ++ [newKot] })

/-! ## Closed forms used by the proofs -/

def sumSubList (l : List SubmittedItem) : Nat := (l.map (·.quantity)).sum

/-- The full-removal push of Case C (orders.js 622-627): retained at its
original quantity, flagged. -/
def flagRemoved (i : OrderItem) : OrderItem :=
  { i with isRemoved := true, isNew := false }

/-- A line after absorbing `r` units of the deficit in place. -/
def reduceBy (r : Nat) (i : OrderItem) : OrderItem :=
  if r = 0 then i else { i with quantity := i.quantity - r }

/-- Closed form of the `incomingMap` entry for one key after a fold. -/
def mergeInc (o : Option (Nat × SubmittedItem)) (f : List SubmittedItem) :
    Option (Nat × SubmittedItem) :=
  match o, f with
  | none, [] => none
  | none, s :: r => some (s.quantity + sumSubList r, s)
  | some (q, d), f => some (q + sumSubList f, d)

/-- The lines one incoming entry appends to `newOrderItems`. -/
def entryItems (menu : Nat → MenuItemRec)
    (existingMap : List (Key × List OrderItem)) (nid : Nat)
    (e : Key × Nat × SubmittedItem) : List OrderItem :=
  let (key, desiredQty, data) := e
  let existingList := (lookupKey existingMap key).getD []
  let existingTotalQty := sumQty existingList
  if desiredQty = existingTotalQty then existingList
  else if existingTotalQty < desiredQty then
    existingList ++ [mkNewStaffItem nid menu data (desiredQty - existingTotalQty)]
  else
    removeFromSorted (existingTotalQty - desiredQty) (sortByPriority existingList)

/-- The change events one incoming entry appends. -/
def entryEvents (menu : Nat → MenuItemRec)
    (existingMap : List (Key × List OrderItem))
    (e : Key × Nat × SubmittedItem) : List ChangeEvent :=
  let (key, desiredQty, data) := e
  let m := menu data.menuItemId
  let existingList := (lookupKey existingMap key).getD []
  let existingTotalQty := sumQty existingList
  if desiredQty = existingTotalQty then []
  else if existingTotalQty < desiredQty then
    [if existingTotalQty = 0 then addedEvent m.name desiredQty .staff
     else staffIncreasedEvent m.name existingTotalQty desiredQty .staff]
  else [staffDecreasedEvent m.name existingTotalQty desiredQty .staff]

/-- How many fresh ids one incoming entry consumes (1 in Case B, else 0). -/
def entryIdUse (existingMap : List (Key × List OrderItem))
    (e : Key × Nat × SubmittedItem) : Nat :=
  let (key, desiredQty, _) := e
  let existingTotalQty := sumQty ((lookupKey existingMap key).getD [])
  if desiredQty = existingTotalQty then 0
  else if existingTotalQty < desiredQty then 1
  else 0

/-- The consolidated customer line first created for a key that already has
an existing line `e` (orders.js 679-693, with the `_id`/`status` spread). -/
def consExisting (menu : Nat → MenuItemRec) (e : OrderItem)
    (s : SubmittedItem) : OrderItem :=
  let mi := menu s.menuItemId
  { id := e.id
    menuItemId := mi.id
    name := mi.name
    price := mi.price
    quantity := s.quantity
    addons := s.addons
    specialInstructions := s.specialInstructions
    isNew := false
    isRemoved := false
    status := e.status }

/-- Closed form of the `consolidatedMap` entry for a key whose
`existingItemsMap` lookup is `some e`. -/
def mergeConsE (menu : Nat → MenuItemRec) (e : OrderItem)
    (o : Option OrderItem) (f : List SubmittedItem) : Option OrderItem :=
  match o, f with
  | none, [] => none
  | none, s :: r =>
    some { consExisting menu e s with quantity := s.quantity + sumSubList r }
  | some v, f => some { v with quantity := v.quantity + sumSubList f }

/-! ## Concrete fixtures for counterexamples and witnesses -/

/-- A catalog in which every id resolves to a ten-rupee "Dish"; its `_id`
round-trips, as `menuItemMap` guarantees for validated submissions. -/
def menuDish : Nat → MenuItemRec :=
  fun n => { id := n, name := "Dish", price := 10 }

def mkPlainItem (id menuItemId qty : Nat) (st : ItemStatus) : OrderItem :=
  { id := id
    menuItemId := menuItemId
    name := "Dish"
    price := 10
    quantity := qty
    addons := []
    specialInstructions := ""
    isNew := false
    isRemoved := false
    status := st }

def mkPlainSub (menuItemId qty : Nat) : SubmittedItem :=
  { menuItemId := menuItemId
    quantity := qty
    addons := []
    specialInstructions := "" }

/-- One line of dish 7, quantity 3, already being prepared. -/
def oldSingle : List OrderItem := [mkPlainItem 1 7 3 .preparing]

/-- Two lines of the same key (dish 7), one pending and one preparing. -/
def oldTwoSameKey : List OrderItem :=
  [mkPlainItem 1 7 1 .pending, mkPlainItem 2 7 1 .preparing]

def subsDish7Two : List SubmittedItem := [mkPlainSub 7 2]

def subsDish7One : List SubmittedItem := [mkPlainSub 7 1]

def subsDish7Five : List SubmittedItem := [mkPlainSub 7 5]

def subsDish8One : List SubmittedItem := [mkPlainSub 8 1]

def keyDish7 : Key := keyOfAddons 7 []

def mkPlainOrder (items : List OrderItem) (st : OrderStatus) : Order :=
  { items := items
    status := st
    totalPrice := 10
    isUpdated := false
    updateCount := 0
    originalItems := []
    updateHistory := []
    kots := []
    batchStatus := [("original", .pending)]
    hasUnseenChanges := false }

/-- An order holding a line already flagged `isRemoved` by an earlier edit
(id 1) next to a live line (id 2). -/
def orderWithRemovedLine : Order :=
  mkPlainOrder
    [{ mkPlainItem 1 6 1 .pending with isRemoved := true },
     mkPlainItem 2 7 1 .pending]
    .pending

def orderServedDish7 : Order :=
  mkPlainOrder [mkPlainItem 1 7 1 .served] .served

def orderCancelled : Order :=
  mkPlainOrder [mkPlainItem 1 7 1 .pending] .cancelled

def subsAddDish8 : List SubmittedItem := [mkPlainSub 7 1, mkPlainSub 8 1]

/-! ## Claim C1 — counterexample

One line of key `(7, [])` at quantity 3 (`preparing`); staff submits
quantity 2.  Case C reduces the line in place to 2 and flags nothing, so the
post-reconciliation sum over the key — isRemoved lines included — is 2,
while the claim demands `max(existingTotalQty, desiredQty) = max 3 2 = 3`.
Quantity removed in place is simply gone from the item list; only fully
consumed lines are retained (flagged) at their old quantity. -/

/-- C1: the staff-policy conservation equation
`sum(post lines with key, incl. isRemoved) = max(existingTotalQty, desiredQty)`
is false at a concrete in-place reduction (3 → 2 yields sum 2, not 3). -/
theorem staff_conservation_max_cex :
    sumQty ((staffReconcile menuDish oldSingle subsDish7Two 100).items.filter
        (fun i => decide (keyOfItem i = keyDish7))) ≠
      max
        (sumQty (oldSingle.filter
          (fun i => decide (keyOfItem i = keyDish7) && !i.isRemoved)))
        (subSumQty keyDish7 subsDish7Two) := by decide

/-! ## Claim C2 — code bug

`orderWithRemovedLine` holds line id 1 (flagged `isRemoved` by an earlier
edit) and live line id 2 (key `(7, [])`).  A staff edit submitting only key
`(8, [])` produces an item list containing neither: `oldItems` filters out
the already-removed line, and the staff branch never re-adds lines whose key
is absent from the submission — the comment at orders.js 641 promises a
"removed detection loop below" that exists only in the customer branch.
`order.items = newOrderItems` then physically deletes both. -/

/-- C2: before the edit the order holds lines 1 and 2; after a staff edit
that omits their keys, only the freshly created line (id 100) remains —
pre-edit lines are physically deleted, not retained with `isRemoved`. -/
theorem staff_absent_key_line_deleted :
    orderWithRemovedLine.items.map (fun i => i.id) = [1, 2] ∧
      (updateOrder menuDish true subsDish8One 100 orderWithRemovedLine).toOption.map
        (fun o => o.items.map (fun i => i.id)) = some [100] := by decide

/-! ## Claim C5 — code bug

Two lines of key `(7, [])` at quantity 1 each; staff submits quantity 1.
Case C retains one line flagged `isRemoved` at quantity 1 and keeps the
other.  The staff total (orders.js 645-650) sums over all of
`newOrderItems`, isRemoved lines included, giving 20; the sum of non-removed
lines' prices, rounded once, is 10. -/

/-- C5: the persisted staff-path total is 20, but the claimed
"sum of all non-removed lines' prices, rounded once" is 10 — the staff total
includes lines flagged `isRemoved` (the customer path and the create path
exclude them). -/
theorem staff_total_includes_removed_lines :
    (updateOrder menuDish true subsDish7One 100
        (mkPlainOrder oldTwoSameKey .pending)).toOption.map
      (fun o => (o.totalPrice,
        round2 (sumPrices (o.items.filter (fun i => !i.isRemoved))))) =
      some (20, 10) := by
  simp +decide [updateOrder, applyEdit, applyEditBookkeeping, reconcile,
    staffReconcile, groupIncoming,
    addIncoming, groupExisting, addExisting, processEntry, lookupKey,
    sortByPriority, removeFromSorted, mkNewStaffItem, keyOfSub, keyOfItem,
    keyOfAddons, canonAddons, insertAddon, sumQty, subSumQty, mkPlainOrder,
    oldTwoSameKey, mkPlainItem, mkPlainSub, subsDish7One, menuDish,
    staffDecreasedEvent, Except.toOption, hasNewWork, setAssoc,
    sumPrices, linePrice, calculateAddonPrice, statusPriority,
    List.insertionSort, List.orderedInsert, flagRemoved]
  norm_num [round2]

/-! ## Claim C8 — counterexample

`PATCH /:orderId/status` (orders.js 1528-1639) validates only that the
status string is in the enum; it never checks the order's current status.
A cancelled order can therefore be set straight to `paid`. -/

/-- C8: a status-transition attempt on a cancelled order is not rejected;
`setOrderStatus` moves it to `paid` (which also violates
"transition to `paid` only from `served`"). -/
theorem setOrderStatus_no_terminal_guard_cex :
    orderCancelled.status = OrderStatus.cancelled ∧
      (setOrderStatus .paid [] orderCancelled).status = OrderStatus.paid ∧
      (setOrderStatus .paid [] orderCancelled).batchStatus =
        [("all", OrderStatus.paid)] := by decide

/-! ## Claim C9 — counterexample

The customer branch flips `isNew := true` not only for lines whose key is
new but also whenever the consolidated quantity exceeds the first matching
old line's quantity (orders.js 733-734). -/

/-- C9: a customer edit raising an existing line (id 5, key `(7, [])`) from
quantity 1 to 2 keeps its id but marks it `isNew = true`, refuting
"`isNew` is set only for lines whose key did not exist before". -/
theorem customer_isNew_on_increase_cex :
    ((customerReconcile menuDish [mkPlainItem 5 7 1 .preparing]
        subsDish7Two 100).items.map (fun i => (i.id, i.isNew))) =
      [(5, true)] := by decide

/-! ## Claim C10 — frame property of ticket generation -/

/-- C10: when `print-kot` prints a ticket, the only persisted change is the
ticket appended to the `kots` ledger; items (hence every line's quantity,
status, `isNew`, `isRemoved`), order status, `totalPrice`, `updateHistory`,
`batchStatus`, `updateCount`, `isUpdated`, `hasUnseenChanges` and
`originalItems` are unchanged. -/
theorem generateTicket_frame (order : Order) (k : Kot) (o' : Order)
    (h : generateTicket order = (some k, o')) :
    o'.items = order.items ∧ o'.status = order.status ∧
      o'.totalPrice = order.totalPrice ∧
      o'.updateHistory = order.updateHistory ∧
      o'.batchStatus = order.batchStatus ∧
      o'.updateCount = order.updateCount ∧
      o'.isUpdated = order.isUpdated ∧
      o'.hasUnseenChanges = order.hasUnseenChanges ∧
      o'.originalItems = order.originalItems ∧
      o'.kots = order.kots ++ [k] := by
  unfold generateTicket at h
  by_cases hc : (itemsToPrint order).isEmpty
  · simp [hc] at h
  · simp only [hc, if_neg, Bool.false_eq_true, if_false, Prod.mk.injEq,
      Option.some.injEq] at h
    obtain ⟨hk, ho⟩ := h
    subst ho
    subst hk
    refine ⟨rfl, rfl, rfl, rfl, rfl, rfl, rfl, rfl, rfl, rfl⟩

/-- C10 witness: a served one-line order with an empty ledger prints KOT 1
and everything except `kots` is unchanged. -/
theorem generateTicket_frame_witness :
    ((generateTicket orderServedDish7).2.items = orderServedDish7.items ∧
        (generateTicket orderServedDish7).2.status = orderServedDish7.status ∧
        (generateTicket orderServedDish7).2.totalPrice =
          orderServedDish7.totalPrice ∧
        (generateTicket orderServedDish7).2.updateHistory =
          orderServedDish7.updateHistory ∧
        (generateTicket orderServedDish7).2.batchStatus =
          orderServedDish7.batchStatus ∧
        (generateTicket orderServedDish7).2.updateCount =
          orderServedDish7.updateCount ∧
        (generateTicket orderServedDish7).2.isUpdated =
          orderServedDish7.isUpdated ∧
        (generateTicket orderServedDish7).2.hasUnseenChanges =
          orderServedDish7.hasUnseenChanges ∧
        (generateTicket orderServedDish7).2.originalItems =
          orderServedDish7.originalItems ∧
        (generateTicket orderServedDish7).2.kots =
          orderServedDish7.kots ++
            [{ kotNumber := 1
               items := [{ itemId := 1, name := "Dish", quantity := 1,
                           addons := [], specialInstructions := "" }] }]) :=
  generateTicket_frame orderServedDish7
    { kotNumber := 1
      items := [{ itemId := 1, name := "Dish", quantity := 1, addons := [],
                  specialInstructions := "" }] }
    (generateTicket orderServedDish7).2 rfl

/-! ## Claim C8 — amended claim

What holds on the code: `updateOrder` rejects terminal orders (for a
non-empty submission, the guard at orders.js 404-409 fires before any
mutation), and `recordPayment` permits the transition to `paid` only from
`served`; but `setOrderStatus` applies any valid status to an order in any
state, with no terminal-state or from-`served` check. -/

/-- C8 (amended): `updateOrder` on a `paid`/`cancelled` order fails with the
terminal-state conflict error; `recordPayment` succeeds exactly from
`served`; and `setOrderStatus` with no batch selection unconditionally
applies the requested status (collapsing `batchStatus` to `all`), leaving
the items untouched. -/
theorem terminal_rejection_amended :
    (∀ (menu : Nat → MenuItemRec) (isStaffEdit : Bool)
        (subs : List SubmittedItem) (startId : Nat) (order : Order),
        subs ≠ [] →
        order.status = OrderStatus.paid ∨ order.status = OrderStatus.cancelled →
        updateOrder menu isStaffEdit subs startId order =
          .error (.terminalState order.status)) ∧
      (∀ order : Order, order.status = OrderStatus.served →
        recordPayment order = .ok { order with status := .paid }) ∧
      (∀ order : Order, order.status ≠ OrderStatus.served →
        recordPayment order = .error (.notServed order.status)) ∧
      (∀ (s : OrderStatus) (order : Order),
        (setOrderStatus s [] order).status = s ∧
          (setOrderStatus s [] order).items = order.items ∧
          (setOrderStatus s [] order).batchStatus = [("all", s)]) := by
  refine ⟨?_, ?_, ?_, ?_⟩
  · intro menu isStaffEdit subs startId order hsubs hterm
    unfold updateOrder
    rw [if_neg (by simpa using hsubs), if_pos hterm]
  · intro order h
    unfold recordPayment
    rw [if_pos h]
  · intro order h
    unfold recordPayment
    rw [if_neg h]
  · intro s order
    unfold setOrderStatus
    simp

/-- C8 witness: the amended claim applied to a cancelled order (update
rejected), a served order (payment recorded), and a direct status write. -/
theorem terminal_rejection_amended_witness :
    updateOrder menuDish true subsDish7One 100 orderCancelled =
        .error (.terminalState OrderStatus.cancelled) ∧
      recordPayment orderServedDish7 =
        .ok { orderServedDish7 with status := .paid } ∧
      recordPayment orderCancelled =
        .error (.notServed OrderStatus.cancelled) ∧
      (setOrderStatus .preparing [] orderCancelled).status = .preparing :=
  ⟨terminal_rejection_amended.1 menuDish true subsDish7One 100 orderCancelled
      (by decide) (Or.inr rfl),
    terminal_rejection_amended.2.1 orderServedDish7 rfl,
    terminal_rejection_amended.2.2.1 orderCancelled (by decide),
    (terminal_rejection_amended.2.2.2 .preparing orderCancelled).1⟩

/-! ## Claim C6 — reopening rule -/

/-- C6: if the reconciliation's change log contains an `item_added` or
`quantity_increased` event and the order was `served`, `ready` or
`preparing` when the edit was submitted, the persisted order is back in
`pending` with `hasUnseenChanges = true`.  Holds for both policies (the
epilogue at orders.js 806-817 is shared). -/
theorem applyEditBookkeeping_reopen (order : Order) (r : ReconResult)
    (hnew : ∃ e ∈ r.events,
        e.changeType = .item_added ∨ e.changeType = .quantity_increased)
    (hstat : order.status = .served ∨ order.status = .ready ∨
        order.status = .preparing) :
    (applyEditBookkeeping order r).status = .pending ∧
      (applyEditBookkeeping order r).hasUnseenChanges = true := by
  obtain ⟨e, he, hety⟩ := hnew
  have hne : r.events.isEmpty = false := by
    cases hev : r.events with
    | nil => rw [hev] at he; exact absurd he (List.not_mem_nil e)
    | cons a l => simp
  have h1 : hasNewWork r.events = true := by
    unfold hasNewWork
    rw [List.any_eq_true]
    exact ⟨e, he, by rcases hety with h' | h' <;> simp [h']⟩
  have h2 : (decide (order.status = OrderStatus.served) ||
      decide (order.status = OrderStatus.ready) ||
      decide (order.status = OrderStatus.preparing)) = true := by
    rcases hstat with h' | h' | h' <;> simp [h']
  simp [applyEditBookkeeping, hne, h1, h2]

theorem updateOrder_ok_eq (menu : Nat → MenuItemRec) (isStaffEdit : Bool)
    (subs : List SubmittedItem) (startId : Nat) (order o' : Order)
    (h : updateOrder menu isStaffEdit subs startId order = .ok o') :
    o' = applyEdit menu isStaffEdit subs startId order := by
  unfold updateOrder at h
  by_cases h1 : subs.isEmpty = true
  · rw [if_pos h1] at h; exact absurd h (by simp)
  · rw [if_neg h1] at h
    by_cases h2 : order.status = OrderStatus.paid ∨
        order.status = OrderStatus.cancelled
    · rw [if_pos h2] at h; exact absurd h (by simp)
    · rw [if_neg h2] at h
      by_cases h3 : (subs.any fun s => decide (s.quantity = 0)) = true
      · rw [if_pos h3] at h; exact absurd h (by simp)
      · rw [if_neg h3] at h
        exact (Except.ok.inj h).symm

/-- C6: if the reconciliation's change log contains an `item_added` or
`quantity_increased` event and the order was `served`, `ready` or
`preparing` when the edit was submitted, the persisted order is back in
`pending` with `hasUnseenChanges = true`.  Holds for both policies (the
epilogue at orders.js 806-817 is shared). -/
theorem reopening_rule (menu : Nat → MenuItemRec) (isStaffEdit : Bool)
    (subs : List SubmittedItem) (startId : Nat) (order o' : Order)
    (h : updateOrder menu isStaffEdit subs startId order = .ok o')
    (hnew : ∃ e ∈ (reconcile menu isStaffEdit
        (order.items.filter (fun i => !i.isRemoved)) subs startId).events,
        e.changeType = .item_added ∨ e.changeType = .quantity_increased)
    (hstat : order.status = .served ∨ order.status = .ready ∨
        order.status = .preparing) :
    o'.status = .pending ∧ o'.hasUnseenChanges = true := by
  have ho := updateOrder_ok_eq menu isStaffEdit subs startId order o' h
  subst ho
  exact applyEditBookkeeping_reopen _ _ hnew hstat

/-! ## Claim C7 — idempotent ticket generation: helper lemmas -/

theorem printedQty_append (ks : List Kot) (k : Kot) (n : Nat) :
    printedQty (ks ++ [k]) n = printedQty ks n +
      ((k.items.filter (fun e => decide (e.itemId = n))).map (·.quantity)).sum := by
  simp [printedQty]

theorem lineToPrint_eq_some (kots : List Kot) (i : OrderItem) (e : KotItem) :
    lineToPrint kots i = some e ↔
      i.isRemoved = false ∧ printedQty kots i.id < (i.quantity : Int) ∧
        e = { itemId := i.id, name := i.name,
              quantity := (i.quantity : Int) - printedQty kots i.id,
              addons := i.addons,
              specialInstructions := i.specialInstructions } := by
  simp only [lineToPrint]
  by_cases h1 : i.isRemoved
  · simp [h1]
  · by_cases h2 : printedQty kots i.id < (i.quantity : Int)
    · have h2' : 0 < (i.quantity : Int) - printedQty kots i.id := by omega
      simp [h1, h2, h2', eq_comm]
    · have h2' : ¬ 0 < (i.quantity : Int) - printedQty kots i.id := by omega
      simp [h1, h2, h2']

theorem toPrint_mem_id (kots : List Kot) (items : List OrderItem) (e : KotItem)
    (he : e ∈ items.filterMap (lineToPrint kots)) :
    e.itemId ∈ items.map (fun i => i.id) := by
  rw [List.mem_filterMap] at he
  obtain ⟨i, hi, hsome⟩ := he
  rw [lineToPrint_eq_some] at hsome
  obtain ⟨-, -, rfl⟩ := hsome
  exact List.mem_map_of_mem _ hi

theorem toPrint_filter_id (kots : List Kot) (items : List OrderItem)
    (L : OrderItem) (hL : L ∈ items)
    (hnd : (items.map (fun i => i.id)).Nodup) :
    (items.filterMap (lineToPrint kots)).filter
        (fun e => decide (e.itemId = L.id)) =
      (lineToPrint kots L).toList := by
  induction items with
  | nil => cases hL
  | cons i rest ih =>
    rw [List.map_cons, List.nodup_cons] at hnd
    obtain ⟨hid, hndr⟩ := hnd
    rcases List.mem_cons.mp hL with rfl | hLr
    · have hrest : (rest.filterMap (lineToPrint kots)).filter
          (fun e => decide (e.itemId = L.id)) = [] := by
        rw [List.filter_eq_nil_iff]
        intro e he
        have hmem := toPrint_mem_id kots rest e he
        simp only [decide_eq_true_eq]
        intro hEq
        rw [hEq] at hmem
        exact hid hmem
      cases hsome : lineToPrint kots L with
      | none => simp [List.filterMap_cons, hsome, hrest]
      | some e =>
        have hEid : e.itemId = L.id := by
          rw [lineToPrint_eq_some] at hsome
          obtain ⟨-, -, rfl⟩ := hsome
          rfl
        simp [List.filterMap_cons, hsome, List.filter_cons, hEid, hrest]
    · have hiid : i.id ≠ L.id := by
        intro hEq
        exact hid (hEq ▸ List.mem_map_of_mem _ hLr)
      cases hsome : lineToPrint kots i with
      | none => simpa [List.filterMap_cons, hsome] using ih hLr hndr
      | some e =>
        have hEid : e.itemId = i.id := by
          rw [lineToPrint_eq_some] at hsome
          obtain ⟨-, -, rfl⟩ := hsome
          rfl
        have hne : ¬ (e.itemId = L.id) := by rw [hEid]; exact hiid
        simp [List.filterMap_cons, hsome, List.filter_cons, hne, ih hLr hndr]

/-- C7: `print-kot` computes each non-removed line's remaining quantity
(current quantity minus quantities already printed for that line id across
all prior tickets), prints exactly the lines with positive remainder on a
ticket numbered `priorTicketCount + 1`, and a second call with no
intervening order change is a no-op that appends nothing. -/
theorem generateTicket_idempotent (order : Order)
    (hnd : (order.items.map (fun i => i.id)).Nodup) :
    ((generateTicket order).1.isSome ↔ ∃ i ∈ order.items,
        i.isRemoved = false ∧
          printedQty order.kots i.id < (i.quantity : Int)) ∧
      (∀ k, (generateTicket order).1 = some k →
        k.kotNumber = order.kots.length + 1 ∧
          (generateTicket order).2.kots = order.kots ++ [k] ∧
          (∀ i ∈ order.items, i.isRemoved = false →
            (printedQty order.kots i.id < (i.quantity : Int) ↔
              ∃ e ∈ k.items, e.itemId = i.id ∧
                e.quantity =
                  (i.quantity : Int) - printedQty order.kots i.id))) ∧
      generateTicket (generateTicket order).2 =
        (none, (generateTicket order).2) := by
  refine ⟨?_, ?_, ?_⟩
  · by_cases he : (itemsToPrint order).isEmpty
    · simp only [generateTicket, he, if_true]
      simp only [Option.isSome_none, Bool.false_eq_true, false_iff]
      rw [List.isEmpty_iff] at he
      rintro ⟨i, hi, h1, h2⟩
      have hsome := (lineToPrint_eq_some order.kots i
        { itemId := i.id, name := i.name,
          quantity := (i.quantity : Int) - printedQty order.kots i.id,
          addons := i.addons,
          specialInstructions := i.specialInstructions }).mpr ⟨h1, h2, rfl⟩
      have hnone : lineToPrint order.kots i = none := by
        have hnil : order.items.filterMap (lineToPrint order.kots) = [] := he
        rw [List.filterMap_eq_nil_iff] at hnil
        exact hnil i hi
      rw [hnone] at hsome
      simp at hsome
    · simp only [generateTicket, he, Bool.false_eq_true, if_false]
      simp only [Option.isSome_some, true_iff]
      have hne : itemsToPrint order ≠ [] := by
        intro hnil
        rw [hnil] at he
        exact he rfl
      obtain ⟨e, hmem⟩ := List.exists_mem_of_ne_nil _ hne
      unfold itemsToPrint at hmem
      rw [List.mem_filterMap] at hmem
      obtain ⟨i, hi, hsome⟩ := hmem
      rw [lineToPrint_eq_some] at hsome
      exact ⟨i, hi, hsome.1, hsome.2.1⟩
  · by_cases he : (itemsToPrint order).isEmpty
    · intro k hk
      simp [generateTicket, he] at hk
    · intro k hk
      simp only [generateTicket, he, Bool.false_eq_true, if_false,
        Option.some.injEq] at hk
      subst hk
      refine ⟨rfl, by simp [generateTicket, he], ?_⟩
      intro i hi hrem
      constructor
      · intro hlt
        refine ⟨_, List.mem_filterMap.mpr
          ⟨i, hi, (lineToPrint_eq_some order.kots i _).mpr ⟨hrem, hlt, rfl⟩⟩,
          rfl, rfl⟩
      · rintro ⟨e, hmem, hid, hq⟩
        have hmem' : e ∈ order.items.filterMap (lineToPrint order.kots) := hmem
        rw [List.mem_filterMap] at hmem'
        obtain ⟨i', hi', hsome⟩ := hmem'
        rw [lineToPrint_eq_some] at hsome
        obtain ⟨hrem', hlt', rfl⟩ := hsome
        have hii : i' = i :=
          List.inj_on_of_nodup_map hnd hi' hi hid
        rw [hii] at hlt'
        exact hlt'
  · by_cases he : (itemsToPrint order).isEmpty
    · have h1 : generateTicket order = (none, order) := by
        simp [generateTicket, he]
      rw [h1]
      exact h1
    · have h2 : (generateTicket order).2 =
          { order with kots := order.kots ++
              [{ kotNumber := order.kots.length + 1,
                 items := itemsToPrint order }] } := by
        simp [generateTicket, he]
      rw [h2]
      have hempty1 : itemsToPrint
          { order with kots := order.kots ++
              [{ kotNumber := order.kots.length + 1,
                 items := itemsToPrint order }] } = [] := by
        unfold itemsToPrint
        rw [List.filterMap_eq_nil_iff]
        intro i hi
        simp only at hi
        by_cases hrem : i.isRemoved
        · simp [lineToPrint, hrem]
        · have hfil := toPrint_filter_id order.kots order.items i hi hnd
          have hprint : printedQty (order.kots ++
              [{ kotNumber := order.kots.length + 1,
                 items := itemsToPrint order }]) i.id =
              printedQty order.kots i.id +
                (((itemsToPrint order).filter
                  (fun e => decide (e.itemId = i.id))).map (·.quantity)).sum := by
            rw [printedQty_append]
          simp only [itemsToPrint] at hprint
          cases hsome : lineToPrint order.kots i with
          | none =>
            have hnlt : ¬ printedQty order.kots i.id < (i.quantity : Int) := by
              intro hlt
              have hcontra := (lineToPrint_eq_some order.kots i
                { itemId := i.id, name := i.name,
                  quantity := (i.quantity : Int) - printedQty order.kots i.id,
                  addons := i.addons,
                  specialInstructions := i.specialInstructions }).mpr
                ⟨by simpa using hrem, hlt, rfl⟩
              rw [hsome] at hcontra
              simp at hcontra
            rw [hsome] at hfil
            simp only [Option.toList_none] at hfil
            rw [hfil] at hprint
            simp only [List.map_nil, List.sum_nil, add_zero] at hprint
            simp only [lineToPrint, hrem, Bool.false_eq_true, if_false]
            rw [hprint]
            simp only [ite_eq_right_iff]
            intro hpos
            exact absurd hpos (by omega)
          | some e =>
            have hchar := (lineToPrint_eq_some order.kots i e).mp hsome
            obtain ⟨-, hlt, hE⟩ := hchar
            rw [hsome] at hfil
            simp only [Option.toList_some] at hfil
            rw [hfil] at hprint
            simp only [List.map_cons, List.map_nil, List.sum_cons,
              List.sum_nil, add_zero] at hprint
            have hq : e.quantity =
                (i.quantity : Int) - printedQty order.kots i.id := by
              rw [hE]
            rw [hq] at hprint
            simp only [lineToPrint, hrem, Bool.false_eq_true, if_false]
            rw [hprint]
            simp only [ite_eq_right_iff]
            intro hpos
            exact absurd hpos (by omega)
      unfold generateTicket
      rw [hempty1]
      simp

/-- C7 witness: the one-line served order with an empty ledger satisfies the
Nodup-ids hypothesis; after the first print, a second print is a no-op. -/
theorem generateTicket_idempotent_witness :
    generateTicket (generateTicket orderServedDish7).2 =
      (none, (generateTicket orderServedDish7).2) :=
  (generateTicket_idempotent orderServedDish7 (by decide)).2.2

/-- C6 witness: a fully served order receives a staff edit adding dish 8;
the persisted order is `pending` with unseen changes. -/
theorem reopening_rule_witness :
    ((updateOrder menuDish true subsAddDish8 100 orderServedDish7).toOption.getD
        orderServedDish7).status = .pending ∧
      ((updateOrder menuDish true subsAddDish8 100 orderServedDish7).toOption.getD
        orderServedDish7).hasUnseenChanges = true :=
  reopening_rule menuDish true subsAddDish8 100 orderServedDish7
    ((updateOrder menuDish true subsAddDish8 100 orderServedDish7).toOption.getD
      orderServedDish7)
    rfl (by decide) (Or.inl rfl)

/-! ## Association-list and grouping lemmas for the staff policy -/

theorem lookupKey_eq_none {α β : Type} [DecidableEq α]
    (m : List (α × β)) (k : α) :
    lookupKey m k = none ↔ k ∉ m.map (·.1) := by
  induction m with
  | nil => simp [lookupKey]
  | cons e rest ih =>
    obtain ⟨k', v⟩ := e
    by_cases h : k' = k
    · subst h
      simp [lookupKey]
    · simp [lookupKey, h, ih, Ne.symm h]

theorem lookupKey_mem {α β : Type} [DecidableEq α]
    (m : List (α × β)) (k : α) (v : β) (h : lookupKey m k = some v) :
    (k, v) ∈ m := by
  induction m with
  | nil => simp [lookupKey] at h
  | cons e rest ih =>
    obtain ⟨k', v'⟩ := e
    by_cases hk : k' = k
    · subst hk
      simp [lookupKey] at h
      subst h
      exact List.mem_cons_self _ _
    · rw [lookupKey, if_neg hk] at h
      exact List.mem_cons_of_mem _ (ih h)

theorem lookupKey_addExisting (m : List (Key × List OrderItem))
    (i : OrderItem) (k : Key) :
    lookupKey (addExisting m i) k =
      if keyOfItem i = k then some ((lookupKey m k).getD [] ++ [i])
      else lookupKey m k := by
  induction m with
  | nil =>
    simp only [addExisting, lookupKey]
    split_ifs <;> simp [lookupKey]
  | cons e rest ih =>
    obtain ⟨k', l⟩ := e
    by_cases h1 : k' = keyOfItem i
    · subst h1
      by_cases h2 : keyOfItem i = k
      · simp [addExisting, lookupKey, h2]
      · simp [addExisting, lookupKey, h2]
    · by_cases h2 : k' = k
      · subst h2
        have hik : ¬ (keyOfItem i = k') := fun h => h1 h.symm
        simp [addExisting, lookupKey, h1, hik]
      · simp [addExisting, lookupKey, h1, h2, ih]

theorem foldl_addExisting_lookup (old : List OrderItem)
    (m : List (Key × List OrderItem)) (k : Key) :
    (lookupKey (old.foldl addExisting m) k).getD [] =
      (lookupKey m k).getD [] ++
        old.filter (fun i => decide (keyOfItem i = k)) := by
  induction old generalizing m with
  | nil => simp
  | cons i rest ih =>
    rw [List.foldl_cons, ih, lookupKey_addExisting]
    by_cases h : keyOfItem i = k <;>
      simp [h, List.filter_cons]

theorem groupExisting_lookup (old : List OrderItem) (k : Key) :
    (lookupKey (groupExisting old) k).getD [] =
      old.filter (fun i => decide (keyOfItem i = k)) := by
  rw [groupExisting, foldl_addExisting_lookup]
  simp [lookupKey]

theorem lookupKey_addIncoming (m : List (Key × Nat × SubmittedItem))
    (s : SubmittedItem) (k : Key) :
    lookupKey (addIncoming m s) k =
      if keyOfSub s = k then
        match lookupKey m k with
        | none => some (s.quantity, s)
        | some (q, d) => some (q + s.quantity, d)
      else lookupKey m k := by
  induction m with
  | nil =>
    simp only [addIncoming, lookupKey]
  | cons e rest ih =>
    obtain ⟨k', q, d⟩ := e
    by_cases h1 : k' = keyOfSub s
    · subst h1
      by_cases h2 : keyOfSub s = k
      · simp [addIncoming, lookupKey, h2]
      · simp [addIncoming, lookupKey, h2]
    · by_cases h2 : k' = k
      · subst h2
        have hik : ¬ (keyOfSub s = k') := fun h => h1 h.symm
        simp [addIncoming, lookupKey, h1, hik]
      · simp [addIncoming, lookupKey, h1, h2, ih]

theorem foldl_addIncoming_lookup (subs : List SubmittedItem)
    (m : List (Key × Nat × SubmittedItem)) (k : Key) :
    lookupKey (subs.foldl addIncoming m) k =
      mergeInc (lookupKey m k)
        (subs.filter (fun s => decide (keyOfSub s = k))) := by
  induction subs generalizing m with
  | nil =>
    cases h : lookupKey m k with
    | none => simp [mergeInc, h]
    | some v => obtain ⟨q, d⟩ := v; simp [mergeInc, h, sumSubList]
  | cons s rest ih =>
    rw [List.foldl_cons, ih, lookupKey_addIncoming]
    by_cases h : keyOfSub s = k
    · rw [if_pos h, List.filter_cons, if_pos (by simpa using h)]
      cases hm : lookupKey m k with
      | none => simp [mergeInc, sumSubList]
      | some v =>
        obtain ⟨q, d⟩ := v
        simp [mergeInc, sumSubList, Nat.add_assoc, Nat.add_comm,
          Nat.add_left_comm]
    · rw [if_neg h, List.filter_cons, if_neg (by simpa using h)]

theorem groupIncoming_lookup (subs : List SubmittedItem) (k : Key) :
    lookupKey (groupIncoming subs) k =
      mergeInc none (subs.filter (fun s => decide (keyOfSub s = k))) := by
  rw [groupIncoming, foldl_addIncoming_lookup]
  simp [lookupKey]

theorem groupIncoming_entry_of_present (subs : List SubmittedItem) (K : Key)
    (hK : ∃ s ∈ subs, keyOfSub s = K) :
    ∃ d, lookupKey (groupIncoming subs) K = some (subSumQty K subs, d) ∧
      keyOfSub d = K := by
  obtain ⟨s, hs, hks⟩ := hK
  rw [groupIncoming_lookup]
  have hmem : s ∈ subs.filter (fun s => decide (keyOfSub s = K)) :=
    List.mem_filter.mpr ⟨hs, by simpa using hks⟩
  cases hf : subs.filter (fun s => decide (keyOfSub s = K)) with
  | nil => rw [hf] at hmem; cases hmem
  | cons a l =>
    have hka : keyOfSub a = K := by
      have := List.mem_filter.mp (hf ▸ List.mem_cons_self a l)
      simpa using this.2
    refine ⟨a, ?_, hka⟩
    rw [subSumQty, hf]
    simp [mergeInc, sumSubList]

theorem groupIncoming_absent (subs : List SubmittedItem) (K : Key)
    (hK : ¬ ∃ s ∈ subs, keyOfSub s = K) :
    lookupKey (groupIncoming subs) K = none ∧ subSumQty K subs = 0 := by
  have hf : subs.filter (fun s => decide (keyOfSub s = K)) = [] := by
    rw [List.filter_eq_nil_iff]
    intro s hs
    simp only [decide_eq_true_eq]
    exact fun hk => hK ⟨s, hs, hk⟩
  constructor
  · rw [groupIncoming_lookup, hf]; rfl
  · rw [subSumQty, hf]; rfl

theorem addIncoming_keys (m : List (Key × Nat × SubmittedItem))
    (s : SubmittedItem) :
    (addIncoming m s).map (·.1) =
      if (lookupKey m (keyOfSub s)).isSome then m.map (·.1)
      else m.map (·.1) ++ [keyOfSub s] := by
  induction m with
  | nil => simp [addIncoming, lookupKey]
  | cons e rest ih =>
    obtain ⟨k', q, d⟩ := e
    by_cases h : k' = keyOfSub s
    · subst h
      simp [addIncoming, lookupKey]
    · by_cases h2 : (lookupKey rest (keyOfSub s)).isSome
      · simp [addIncoming, lookupKey, h, h2, ih]
      · simp [addIncoming, lookupKey, h, h2, ih]

theorem foldl_addIncoming_keys_nodup (subs : List SubmittedItem) :
    ∀ m : List (Key × Nat × SubmittedItem),
      (m.map (·.1)).Nodup → (((subs.foldl addIncoming m)).map (·.1)).Nodup := by
  induction subs with
  | nil => intro m h; exact h
  | cons s rest ih =>
    intro m h
    rw [List.foldl_cons]
    apply ih
    rw [addIncoming_keys]
    by_cases h2 : (lookupKey m (keyOfSub s)).isSome
    · simpa [h2] using h
    · rw [if_neg h2]
      have hnot : keyOfSub s ∉ m.map (·.1) := by
        rw [← lookupKey_eq_none]
        exact Option.not_isSome_iff_eq_none.mp h2
      rw [List.nodup_append]
      refine ⟨h, List.nodup_singleton _, ?_⟩
      intro x hx hxa
      rw [List.mem_singleton] at hxa
      subst hxa
      exact hnot hx

theorem groupIncoming_keys_nodup (subs : List SubmittedItem) :
    ((groupIncoming subs).map (·.1)).Nodup :=
  foldl_addIncoming_keys_nodup subs [] (by simp)

theorem addIncoming_entry_key (s : SubmittedItem) :
    ∀ m : List (Key × Nat × SubmittedItem),
      (∀ e ∈ m, e.1 = keyOfSub e.2.2) →
      ∀ e ∈ addIncoming m s, e.1 = keyOfSub e.2.2 := by
  intro m
  induction m with
  | nil =>
    intro _ e he
    simp only [addIncoming, List.mem_singleton] at he
    subst he
    rfl
  | cons e0 rest ih =>
    intro hm e he
    obtain ⟨k', q, d⟩ := e0
    have hm0 : k' = keyOfSub d := hm _ (List.mem_cons_self _ _)
    have hmr : ∀ x ∈ rest, x.1 = keyOfSub x.2.2 :=
      fun x hx => hm _ (List.mem_cons_of_mem _ hx)
    by_cases h : k' = keyOfSub s
    · rw [addIncoming, if_pos h] at he
      rcases List.mem_cons.mp he with rfl | hr
      · exact hm0
      · exact hmr _ hr
    · rw [addIncoming, if_neg h] at he
      rcases List.mem_cons.mp he with rfl | hr
      · exact hm0
      · exact ih hmr _ hr

theorem groupIncoming_entry_key (subs : List SubmittedItem) :
    ∀ e ∈ groupIncoming subs, e.1 = keyOfSub e.2.2 := by
  rw [groupIncoming]
  have h : ∀ (l : List SubmittedItem) (m : List (Key × Nat × SubmittedItem)),
      (∀ e ∈ m, e.1 = keyOfSub e.2.2) →
      ∀ e ∈ l.foldl addIncoming m, e.1 = keyOfSub e.2.2 := by
    intro l
    induction l with
    | nil => intro m hm; exact hm
    | cons s rest ih =>
      intro m hm
      rw [List.foldl_cons]
      exact ih _ (addIncoming_entry_key s m hm)
  exact h subs [] (by simp)

theorem removeFromSorted_zero (l : List OrderItem) :
    removeFromSorted 0 l = l := by
  induction l with
  | nil => rfl
  | cons i rest ih => simp [removeFromSorted, ih]

theorem removeFromSorted_map_key (a : Nat) (l : List OrderItem) :
    (removeFromSorted a l).map keyOfItem = l.map keyOfItem := by
  induction l generalizing a with
  | nil => simp [removeFromSorted]
  | cons i rest ih =>
    by_cases h0 : a = 0
    · subst h0
      simp [removeFromSorted, removeFromSorted_zero]
    · by_cases h1 : a < i.quantity
      · simp only [removeFromSorted, h0, if_false, h1, if_true,
          removeFromSorted_zero, List.map_cons]
        rfl
      · simp only [removeFromSorted, h0, if_false, h1, if_false,
          List.map_cons, ih]
        rfl

theorem removeFromSorted_map_id (a : Nat) (l : List OrderItem) :
    (removeFromSorted a l).map (fun i => i.id) = l.map (fun i => i.id) := by
  induction l generalizing a with
  | nil => simp [removeFromSorted]
  | cons i rest ih =>
    by_cases h0 : a = 0
    · subst h0
      simp [removeFromSorted, removeFromSorted_zero]
    · by_cases h1 : a < i.quantity
      · simp only [removeFromSorted, h0, if_false, h1, if_true,
          removeFromSorted_zero, List.map_cons]
      · simp only [removeFromSorted, h0, if_false, h1, if_false,
          List.map_cons, ih]

theorem entryItems_keys (menu : Nat → MenuItemRec)
    (ex : List (Key × List OrderItem)) (nid : Nat)
    (e : Key × Nat × SubmittedItem)
    (hkey : e.1 = keyOfSub e.2.2)
    (hex : ∀ i ∈ (lookupKey ex e.1).getD [], keyOfItem i = e.1)
    (hmenu : ∀ n, (menu n).id = n) :
    ∀ i ∈ entryItems menu ex nid e, keyOfItem i = e.1 := by
  obtain ⟨k, q, d⟩ := e
  intro i hi
  simp only [entryItems] at hi
  split_ifs at hi with h1 h2
  · exact hex i hi
  · rcases List.mem_append.mp hi with hiE | hiN
    · exact hex i hiE
    · rw [List.mem_singleton] at hiN
      subst hiN
      show keyOfAddons (menu d.menuItemId).id d.addons = k
      rw [hmenu]
      exact hkey.symm
  · have hmem : keyOfItem i ∈
        (removeFromSorted (sumQty ((lookupKey ex k).getD []) - q)
          (sortByPriority ((lookupKey ex k).getD []))).map keyOfItem :=
      List.mem_map_of_mem _ hi
    rw [removeFromSorted_map_key] at hmem
    have hperm := (List.perm_insertionSort prioLe
      ((lookupKey ex k).getD [])).map keyOfItem
    have hmem2 : keyOfItem i ∈ ((lookupKey ex k).getD []).map keyOfItem :=
      hperm.mem_iff.mp hmem
    obtain ⟨j, hj, hkj⟩ := List.mem_map.mp hmem2
    rw [← hkj]
    exact hex j hj

theorem processEntry_eq (menu : Nat → MenuItemRec)
    (ex : List (Key × List OrderItem))
    (st : List OrderItem × List ChangeEvent × Nat)
    (e : Key × Nat × SubmittedItem) :
    processEntry menu ex st e =
      (st.1 ++ entryItems menu ex st.2.2 e,
        st.2.1 ++ entryEvents menu ex e,
        st.2.2 + entryIdUse ex e) := by
  obtain ⟨acc, evs, nid⟩ := st
  obtain ⟨k, q, d⟩ := e
  simp only [processEntry, entryItems, entryEvents, entryIdUse]
  by_cases h1 : q = sumQty ((lookupKey ex k).getD [])
  · simp [h1]
  · by_cases h2 : sumQty ((lookupKey ex k).getD []) < q
    · simp [h1, h2]
    · simp [h1, h2]

theorem foldl_processEntry_events (menu : Nat → MenuItemRec)
    (ex : List (Key × List OrderItem))
    (entries : List (Key × Nat × SubmittedItem)) :
    ∀ (acc : List OrderItem) (evs : List ChangeEvent) (nid : Nat),
      (entries.foldl (processEntry menu ex) (acc, evs, nid)).2.1 =
        evs ++ (entries.map (entryEvents menu ex)).flatten := by
  induction entries with
  | nil => intro acc evs nid; simp
  | cons e es ih =>
    intro acc evs nid
    rw [List.foldl_cons, processEntry_eq, ih]
    simp

theorem foldl_processEntry_filter_absent (menu : Nat → MenuItemRec)
    (ex : List (Key × List OrderItem)) (K : Key)
    (hex : ∀ k : Key, ∀ i ∈ (lookupKey ex k).getD [], keyOfItem i = k)
    (hmenu : ∀ n, (menu n).id = n) :
    ∀ (entries : List (Key × Nat × SubmittedItem)) (acc : List OrderItem)
      (evs : List ChangeEvent) (nid : Nat),
      (∀ e ∈ entries, e.1 = keyOfSub e.2.2) →
      K ∉ entries.map (·.1) →
      ((entries.foldl (processEntry menu ex) (acc, evs, nid)).1).filter
          (fun i => decide (keyOfItem i = K)) =
        acc.filter (fun i => decide (keyOfItem i = K)) := by
  intro entries
  induction entries with
  | nil => intro acc evs nid _ _; simp
  | cons e es ih =>
    intro acc evs nid hkeys hK
    rw [List.map_cons] at hK
    have hKe : e.1 ≠ K := by
      intro h
      exact hK (h ▸ List.mem_cons_self _ _)
    have hKes : K ∉ es.map (·.1) := fun h => hK (List.mem_cons_of_mem _ h)
    rw [List.foldl_cons, processEntry_eq]
    rw [ih _ _ _ (fun x hx => hkeys x (List.mem_cons_of_mem _ hx)) hKes]
    rw [List.filter_append]
    have hnil : (entryItems menu ex nid e).filter
        (fun i => decide (keyOfItem i = K)) = [] := by
      rw [List.filter_eq_nil_iff]
      intro i hi
      have hk := entryItems_keys menu ex nid e
        (hkeys e (List.mem_cons_self _ _)) (hex e.1) hmenu i hi
      simp only [decide_eq_true_eq]
      rw [hk]
      exact hKe
    rw [hnil, List.append_nil]

theorem foldl_processEntry_filter_present (menu : Nat → MenuItemRec)
    (ex : List (Key × List OrderItem)) (K : Key) (q : Nat)
    (d : SubmittedItem)
    (hex : ∀ k : Key, ∀ i ∈ (lookupKey ex k).getD [], keyOfItem i = k)
    (hmenu : ∀ n, (menu n).id = n) :
    ∀ (entries : List (Key × Nat × SubmittedItem)) (acc : List OrderItem)
      (evs : List ChangeEvent) (nid : Nat),
      (∀ e ∈ entries, e.1 = keyOfSub e.2.2) →
      (entries.map (·.1)).Nodup →
      (K, q, d) ∈ entries →
      ∃ nid' : Nat,
        ((entries.foldl (processEntry menu ex) (acc, evs, nid)).1).filter
            (fun i => decide (keyOfItem i = K)) =
          acc.filter (fun i => decide (keyOfItem i = K)) ++
            entryItems menu ex nid' (K, q, d) := by
  intro entries
  induction entries with
  | nil => intro acc evs nid _ _ hmem; cases hmem
  | cons e es ih =>
    intro acc evs nid hkeys hnd hmem
    rw [List.map_cons, List.nodup_cons] at hnd
    obtain ⟨hnd1, hnd2⟩ := hnd
    rw [List.foldl_cons, processEntry_eq]
    rcases List.mem_cons.mp hmem with rfl | hmem'
    · -- this entry is (K, q, d); the rest contains no key-K entry
      have hKes : K ∉ es.map (·.1) := hnd1
      refine ⟨nid, ?_⟩
      rw [foldl_processEntry_filter_absent menu ex K hex hmenu es _ _ _
        (fun x hx => hkeys x (List.mem_cons_of_mem _ hx)) hKes]
      rw [List.filter_append]
      have hself : (entryItems menu ex nid (K, q, d)).filter
          (fun i => decide (keyOfItem i = K)) =
          entryItems menu ex nid (K, q, d) := by
        rw [List.filter_eq_self]
        intro i hi
        have hk := entryItems_keys menu ex nid (K, q, d)
          (hkeys _ (List.mem_cons_self _ _)) (hex K) hmenu i hi
        simpa using hk
      rw [hself]
    · -- the head has a different key
      have hKe : e.1 ≠ K := by
        intro h
        have hmm : K ∈ es.map (·.1) := List.mem_map_of_mem (·.1) hmem'
        rw [← h] at hmm
        exact hnd1 hmm
      obtain ⟨nid', hrec⟩ := ih (acc ++ entryItems menu ex nid e) _ _
        (fun x hx => hkeys x (List.mem_cons_of_mem _ hx)) hnd2 hmem'
      refine ⟨nid', ?_⟩
      rw [hrec, List.filter_append]
      have hnil : (entryItems menu ex nid e).filter
          (fun i => decide (keyOfItem i = K)) = [] := by
        rw [List.filter_eq_nil_iff]
        intro i hi
        have hk := entryItems_keys menu ex nid e
          (hkeys e (List.mem_cons_self _ _)) (hex e.1) hmenu i hi
        simp only [decide_eq_true_eq]
        rw [hk]
        exact hKe
      rw [hnil, List.append_nil]

/-- The central decomposition: the staff reconciliation's output restricted
to one key is exactly that key's Case A/B/C contribution. -/
theorem staffReconcile_filter_present (menu : Nat → MenuItemRec)
    (old : List OrderItem) (subs : List SubmittedItem) (startId : Nat)
    (K : Key) (hmenu : ∀ n, (menu n).id = n)
    (hK : ∃ s ∈ subs, keyOfSub s = K) :
    ∃ (nid : Nat) (d : SubmittedItem),
      (staffReconcile menu old subs startId).items.filter
          (fun i => decide (keyOfItem i = K)) =
        entryItems menu (groupExisting old) nid (K, subSumQty K subs, d) := by
  obtain ⟨d, hentry, hkd⟩ := groupIncoming_entry_of_present subs K hK
  have hex : ∀ k : Key, ∀ i ∈ (lookupKey (groupExisting old) k).getD [],
      keyOfItem i = k := by
    intro k i hi
    rw [groupExisting_lookup] at hi
    have := List.mem_filter.mp hi
    simpa using this.2
  have hmem : (K, subSumQty K subs, d) ∈ groupIncoming subs :=
    lookupKey_mem _ _ _ hentry
  obtain ⟨nid, hfil⟩ := foldl_processEntry_filter_present menu
    (groupExisting old) K (subSumQty K subs) d hex hmenu
    (groupIncoming subs) [] [] startId (groupIncoming_entry_key subs)
    (groupIncoming_keys_nodup subs) hmem
  refine ⟨nid, d, ?_⟩
  show ((groupIncoming subs).foldl
      (processEntry menu (groupExisting old)) ([], [], startId)).1.filter
      (fun i => decide (keyOfItem i = K)) = _
  rw [hfil]
  simp

theorem staffReconcile_filter_absent (menu : Nat → MenuItemRec)
    (old : List OrderItem) (subs : List SubmittedItem) (startId : Nat)
    (K : Key) (hmenu : ∀ n, (menu n).id = n)
    (hK : ¬ ∃ s ∈ subs, keyOfSub s = K) :
    (staffReconcile menu old subs startId).items.filter
        (fun i => decide (keyOfItem i = K)) = [] := by
  have hex : ∀ k : Key, ∀ i ∈ (lookupKey (groupExisting old) k).getD [],
      keyOfItem i = k := by
    intro k i hi
    rw [groupExisting_lookup] at hi
    have := List.mem_filter.mp hi
    simpa using this.2
  have hnone := (groupIncoming_absent subs K hK).1
  have hnotin : K ∉ (groupIncoming subs).map (·.1) :=
    (lookupKey_eq_none _ _).mp hnone
  show ((groupIncoming subs).foldl
      (processEntry menu (groupExisting old)) ([], [], startId)).1.filter
      (fun i => decide (keyOfItem i = K)) = []
  rw [foldl_processEntry_filter_absent menu (groupExisting old) K hex hmenu
    (groupIncoming subs) [] [] startId (groupIncoming_entry_key subs) hnotin]
  simp

theorem staffReconcile_events_eq (menu : Nat → MenuItemRec)
    (old : List OrderItem) (subs : List SubmittedItem) (startId : Nat) :
    (staffReconcile menu old subs startId).events =
      ((groupIncoming subs).map
        (entryEvents menu (groupExisting old))).flatten := by
  show ((groupIncoming subs).foldl
      (processEntry menu (groupExisting old)) ([], [], startId)).2.1 = _
  rw [foldl_processEntry_events]
  simp

theorem sumQty_nil : sumQty [] = 0 := rfl

theorem sumQty_cons (i : OrderItem) (l : List OrderItem) :
    sumQty (i :: l) = i.quantity + sumQty l := by
  simp [sumQty]

theorem sumQty_append (l1 l2 : List OrderItem) :
    sumQty (l1 ++ l2) = sumQty l1 + sumQty l2 := by
  simp [sumQty]

theorem removeFromSorted_nonrem_sum (a : Nat) (l : List OrderItem)
    (h1 : ∀ i ∈ l, i.isRemoved = false) (h2 : a ≤ sumQty l) :
    sumQty ((removeFromSorted a l).filter (fun i => !i.isRemoved)) =
      sumQty l - a := by
  induction l generalizing a with
  | nil =>
    simp [sumQty] at h2
    simp [removeFromSorted, sumQty, h2]
  | cons i rest ih =>
    have hi0 : i.isRemoved = false := h1 i (List.mem_cons_self _ _)
    have h1r : ∀ j ∈ rest, j.isRemoved = false :=
      fun j hj => h1 j (List.mem_cons_of_mem _ hj)
    by_cases h0 : a = 0
    · subst h0
      rw [removeFromSorted_zero]
      have hall : (i :: rest).filter (fun i => !i.isRemoved) = i :: rest :=
        List.filter_eq_self.mpr (fun j hj => by simp [h1 j hj])
      rw [hall]
      omega
    · by_cases hlt : a < i.quantity
      · simp only [removeFromSorted, h0, if_false, hlt, if_true,
          removeFromSorted_zero]
        have hall : rest.filter (fun i => !i.isRemoved) = rest :=
          List.filter_eq_self.mpr (fun j hj => by simp [h1r j hj])
        rw [sumQty_cons] at h2
        rw [List.filter_cons]
        simp only [hi0, Bool.not_false, if_true, hall]
        rw [sumQty_cons, sumQty_cons]
        dsimp only
        omega
      · simp only [removeFromSorted, h0, if_false, hlt, if_false]
        rw [sumQty_cons] at h2
        have hrec := ih (a - i.quantity) h1r (by omega)
        rw [List.filter_cons]
        simp only [flagRemoved]
        norm_num
        rw [hrec, sumQty_cons]
        omega

/-! ## Claim C1 — amended theorem

What actually holds is conservation in non-removed form: for any key, the
non-removed post-reconciliation lines of that key sum to exactly the
submitted (desired) quantity — for keys absent from the submission that
desired quantity is 0 and the lines are (wrongly, see C2) deleted rather
than retained, so the equation holds there too. -/

/-- C1 (amended): in every staff reconciliation, for any key, the sum of
quantities of non-`isRemoved` post-reconciliation lines with that key equals
the summed submitted quantity of that key. -/
theorem staff_nonremoved_sum_eq_desired (menu : Nat → MenuItemRec)
    (old : List OrderItem) (subs : List SubmittedItem) (startId : Nat)
    (K : Key) (hmenu : ∀ n, (menu n).id = n)
    (hold : ∀ i ∈ old, i.isRemoved = false) :
    sumQty (((staffReconcile menu old subs startId).items.filter
        (fun i => decide (keyOfItem i = K))).filter
          (fun i => !i.isRemoved)) = subSumQty K subs := by
  by_cases hK : ∃ s ∈ subs, keyOfSub s = K
  · obtain ⟨nid, d, hfil⟩ :=
      staffReconcile_filter_present menu old subs startId K hmenu hK
    rw [hfil]
    have hEfilter : (lookupKey (groupExisting old) K).getD [] =
        old.filter (fun i => decide (keyOfItem i = K)) :=
      groupExisting_lookup old K
    have hEnonrem : ∀ i ∈ (lookupKey (groupExisting old) K).getD [],
        i.isRemoved = false := by
      intro i hi
      rw [hEfilter] at hi
      exact hold i (List.mem_filter.mp hi).1
    simp only [entryItems]
    by_cases h1 : subSumQty K subs =
        sumQty ((lookupKey (groupExisting old) K).getD [])
    · rw [if_pos h1]
      have hall : ((lookupKey (groupExisting old) K).getD []).filter
          (fun i => !i.isRemoved) =
          (lookupKey (groupExisting old) K).getD [] :=
        List.filter_eq_self.mpr (fun j hj => by simp [hEnonrem j hj])
      rw [hall, ← h1]
    · rw [if_neg h1]
      by_cases h2 : sumQty ((lookupKey (groupExisting old) K).getD []) <
          subSumQty K subs
      · rw [if_pos h2]
        rw [List.filter_append]
        have hall : ((lookupKey (groupExisting old) K).getD []).filter
            (fun i => !i.isRemoved) =
            (lookupKey (groupExisting old) K).getD [] :=
          List.filter_eq_self.mpr (fun j hj => by simp [hEnonrem j hj])
        rw [hall]
        simp only [mkNewStaffItem, List.filter_cons, List.filter_nil]
        norm_num
        rw [sumQty_append, sumQty_cons, sumQty_nil]
        dsimp only
        omega
      · rw [if_neg h2]
        have hperm : List.Perm
            (sortByPriority ((lookupKey (groupExisting old) K).getD []))
            ((lookupKey (groupExisting old) K).getD []) :=
          List.perm_insertionSort prioLe _
        have hsum : sumQty (sortByPriority
            ((lookupKey (groupExisting old) K).getD [])) =
            sumQty ((lookupKey (groupExisting old) K).getD []) :=
          List.Perm.sum_eq
            (List.Perm.map (fun i : OrderItem => i.quantity) hperm)
        have hnonrem' : ∀ i ∈ sortByPriority
            ((lookupKey (groupExisting old) K).getD []),
            i.isRemoved = false :=
          fun i hi => hEnonrem i (hperm.mem_iff.mp hi)
        rw [removeFromSorted_nonrem_sum _ _ hnonrem' (by omega)]
        omega
  · rw [staffReconcile_filter_absent menu old subs startId K hmenu hK]
    rw [(groupIncoming_absent subs K hK).2]
    rfl

/-- C1 amended witness: two lines of key `(7, [])` (1 + 1), staff submits
quantity 1: the non-removed lines of the key sum to 1. -/
theorem staff_nonremoved_sum_eq_desired_witness :
    sumQty (((staffReconcile menuDish oldTwoSameKey subsDish7One 100).items.filter
        (fun i => decide (keyOfItem i = keyDish7))).filter
          (fun i => !i.isRemoved)) = subSumQty keyDish7 subsDish7One :=
  staff_nonremoved_sum_eq_desired menuDish oldTwoSameKey subsDish7One 100
    keyDish7 (fun _ => rfl) (by decide)

theorem events_countP_of_entries (menu : Nat → MenuItemRec)
    (ex : List (Key × List OrderItem)) (p : ChangeEvent → Bool)
    (g : (Key × Nat × SubmittedItem) → Bool)
    (hcase : ∀ e, (entryEvents menu ex e).countP p = if g e then 1 else 0) :
    ∀ entries : List (Key × Nat × SubmittedItem),
      ((entries.map (entryEvents menu ex)).flatten).countP p =
        entries.countP g := by
  intro entries
  induction entries with
  | nil => simp
  | cons e es ih =>
    simp only [List.map_cons, List.flatten_cons, List.countP_append, ih,
      List.countP_cons, hcase e]
    by_cases hg : g e = true
    · simp [hg]
      omega
    · simp [hg]

theorem entryEvents_countP_dec (menu : Nat → MenuItemRec)
    (ex : List (Key × List OrderItem)) (e : Key × Nat × SubmittedItem) :
    (entryEvents menu ex e).countP
        (fun ev => decide (ev.changeType = .quantity_decreased)) =
      if e.2.1 < sumQty ((lookupKey ex e.1).getD []) then 1 else 0 := by
  obtain ⟨k, q, d⟩ := e
  simp only [entryEvents]
  by_cases h1 : q = sumQty ((lookupKey ex k).getD [])
  · rw [if_pos h1,
      if_neg (by omega : ¬ q < sumQty ((lookupKey ex k).getD []))]
    rfl
  · by_cases h2 : sumQty ((lookupKey ex k).getD []) < q
    · rw [if_neg h1, if_pos h2,
        if_neg (by omega : ¬ q < sumQty ((lookupKey ex k).getD []))]
      by_cases h4 : sumQty ((lookupKey ex k).getD []) = 0
      · rw [if_pos h4]
        simp [addedEvent, List.countP_cons]
      · rw [if_neg h4]
        simp [staffIncreasedEvent, List.countP_cons]
    · rw [if_neg h1, if_neg h2,
        if_pos (by omega : q < sumQty ((lookupKey ex k).getD []))]
      simp [staffDecreasedEvent, List.countP_cons]

theorem entryEvents_countP_added (menu : Nat → MenuItemRec)
    (ex : List (Key × List OrderItem)) (e : Key × Nat × SubmittedItem) :
    (entryEvents menu ex e).countP
        (fun ev => decide (ev.changeType = .item_added)) =
      if sumQty ((lookupKey ex e.1).getD []) = 0 ∧ 0 < e.2.1 then 1
      else 0 := by
  obtain ⟨k, q, d⟩ := e
  simp only [entryEvents]
  by_cases h1 : q = sumQty ((lookupKey ex k).getD [])
  · rw [if_pos h1, if_neg (by omega :
      ¬ (sumQty ((lookupKey ex k).getD []) = 0 ∧ 0 < q))]
    rfl
  · by_cases h2 : sumQty ((lookupKey ex k).getD []) < q
    · rw [if_neg h1, if_pos h2]
      by_cases h4 : sumQty ((lookupKey ex k).getD []) = 0
      · rw [if_pos h4, if_pos (by omega :
          sumQty ((lookupKey ex k).getD []) = 0 ∧ 0 < q)]
        simp [addedEvent, List.countP_cons]
      · rw [if_neg h4, if_neg (by omega :
          ¬ (sumQty ((lookupKey ex k).getD []) = 0 ∧ 0 < q))]
        simp [staffIncreasedEvent, List.countP_cons]
    · rw [if_neg h1, if_neg h2, if_neg (by omega :
        ¬ (sumQty ((lookupKey ex k).getD []) = 0 ∧ 0 < q))]
      simp [staffDecreasedEvent, List.countP_cons]

theorem entryEvents_countP_inc (menu : Nat → MenuItemRec)
    (ex : List (Key × List OrderItem)) (e : Key × Nat × SubmittedItem) :
    (entryEvents menu ex e).countP
        (fun ev => decide (ev.changeType = .quantity_increased)) =
      if 0 < sumQty ((lookupKey ex e.1).getD []) ∧
          sumQty ((lookupKey ex e.1).getD []) < e.2.1 then 1
      else 0 := by
  obtain ⟨k, q, d⟩ := e
  simp only [entryEvents]
  by_cases h1 : q = sumQty ((lookupKey ex k).getD [])
  · rw [if_pos h1, if_neg (by omega :
      ¬ (0 < sumQty ((lookupKey ex k).getD []) ∧
          sumQty ((lookupKey ex k).getD []) < q))]
    rfl
  · by_cases h2 : sumQty ((lookupKey ex k).getD []) < q
    · rw [if_neg h1, if_pos h2]
      by_cases h4 : sumQty ((lookupKey ex k).getD []) = 0
      · rw [if_pos h4, if_neg (by omega :
          ¬ (0 < sumQty ((lookupKey ex k).getD []) ∧
              sumQty ((lookupKey ex k).getD []) < q))]
        simp [addedEvent, List.countP_cons]
      · rw [if_neg h4, if_pos (by omega :
          0 < sumQty ((lookupKey ex k).getD []) ∧
            sumQty ((lookupKey ex k).getD []) < q)]
        simp [staffIncreasedEvent, List.countP_cons]
    · rw [if_neg h1, if_neg h2, if_neg (by omega :
        ¬ (0 < sumQty ((lookupKey ex k).getD []) ∧
            sumQty ((lookupKey ex k).getD []) < q))]
      simp [staffDecreasedEvent, List.countP_cons]

/-! ## Claim C4 — staff-policy quantity increase -/

/-- C4: when a key's desired quantity exceeds its existing total, the
existing lines of the key are retained verbatim and exactly one new line is
appended for the surplus, with `status = pending`, `isNew = true` and not
removed; across the whole edit, the number of `item_added` events equals the
number of submitted keys with no existing lines, and the number of
`quantity_increased` events equals the number of submitted keys whose
desired quantity strictly exceeds a positive existing total — hence exactly
one such event per increased key. -/
theorem staff_increase_appends_pending_line (menu : Nat → MenuItemRec)
    (old : List OrderItem) (subs : List SubmittedItem) (startId : Nat)
    (K : Key) (hmenu : ∀ n, (menu n).id = n)
    (hK : ∃ s ∈ subs, keyOfSub s = K)
    (hinc : sumQty (old.filter (fun i => decide (keyOfItem i = K))) <
      subSumQty K subs) :
    (∃ L : OrderItem,
      (staffReconcile menu old subs startId).items.filter
          (fun i => decide (keyOfItem i = K)) =
        old.filter (fun i => decide (keyOfItem i = K)) ++ [L] ∧
      L.quantity = subSumQty K subs -
        sumQty (old.filter (fun i => decide (keyOfItem i = K))) ∧
      L.status = .pending ∧ L.isNew = true ∧ L.isRemoved = false) ∧
    ((staffReconcile menu old subs startId).events.countP
        (fun ev => decide (ev.changeType = .item_added)) =
      (groupIncoming subs).countP (fun en =>
        decide (sumQty (old.filter
          (fun i => decide (keyOfItem i = en.1))) = 0) &&
        decide (0 < en.2.1))) ∧
    ((staffReconcile menu old subs startId).events.countP
        (fun ev => decide (ev.changeType = .quantity_increased)) =
      (groupIncoming subs).countP (fun en =>
        decide (0 < sumQty (old.filter
          (fun i => decide (keyOfItem i = en.1)))) &&
        decide (sumQty (old.filter
          (fun i => decide (keyOfItem i = en.1))) < en.2.1))) := by
  refine ⟨?_, ?_, ?_⟩
  · obtain ⟨nid, d, hfil⟩ :=
      staffReconcile_filter_present menu old subs startId K hmenu hK
    rw [hfil]
    have hEfilter : (lookupKey (groupExisting old) K).getD [] =
        old.filter (fun i => decide (keyOfItem i = K)) :=
      groupExisting_lookup old K
    refine ⟨mkNewStaffItem nid menu d
      (subSumQty K subs - sumQty ((lookupKey (groupExisting old) K).getD [])),
      ?_, ?_, rfl, rfl, rfl⟩
    · simp only [entryItems]
      rw [if_neg (by rw [hEfilter]; omega), if_pos (by rw [hEfilter]; omega)]
      rw [hEfilter]
    · show subSumQty K subs -
          sumQty ((lookupKey (groupExisting old) K).getD []) = _
      rw [hEfilter]
  · rw [staffReconcile_events_eq]
    rw [events_countP_of_entries menu (groupExisting old) _
      (fun en => decide (sumQty ((lookupKey (groupExisting old) en.1).getD [])
          = 0) && decide (0 < en.2.1))
      (fun e => by
        rw [entryEvents_countP_added]
        by_cases h : sumQty ((lookupKey (groupExisting old) e.1).getD []) = 0
            ∧ 0 < e.2.1
        · simp [h.1, h.2]
        · rw [if_neg h]
          rcases Decidable.not_and_iff_or_not.mp h with h' | h' <;>
            simp [h'])]
    apply List.countP_congr
    intro en _
    rw [groupExisting_lookup]
  · rw [staffReconcile_events_eq]
    rw [events_countP_of_entries menu (groupExisting old) _
      (fun en => decide (0 < sumQty
          ((lookupKey (groupExisting old) en.1).getD [])) &&
        decide (sumQty ((lookupKey (groupExisting old) en.1).getD []) <
          en.2.1))
      (fun e => by
        rw [entryEvents_countP_inc]
        by_cases h : 0 < sumQty ((lookupKey (groupExisting old) e.1).getD [])
            ∧ sumQty ((lookupKey (groupExisting old) e.1).getD []) < e.2.1
        · simp [h.1, h.2]
        · rw [if_neg h]
          rcases Decidable.not_and_iff_or_not.mp h with h' | h' <;>
            simp [h'])]
    apply List.countP_congr
    intro en _
    rw [groupExisting_lookup]

/-- C4 witness: one existing line of key `(7, [])` at quantity 3
(`preparing`); staff submits 5: the key's post list is the untouched line
plus one pending surplus line of quantity 2, and one `quantity_increased`
event is logged. -/
theorem staff_increase_appends_pending_line_witness :
    (staffReconcile menuDish oldSingle subsDish7Five 100).events.countP
        (fun ev => decide (ev.changeType = .quantity_increased)) =
      (groupIncoming subsDish7Five).countP (fun en =>
        decide (0 < sumQty (oldSingle.filter
          (fun i => decide (keyOfItem i = en.1)))) &&
        decide (sumQty (oldSingle.filter
          (fun i => decide (keyOfItem i = en.1))) < en.2.1)) :=
  (staff_increase_appends_pending_line menuDish oldSingle subsDish7Five 100
    keyDish7 (fun _ => rfl) (by decide) (by decide)).2.2

theorem flagRemoved_id (i : OrderItem) : (flagRemoved i).id = i.id := rfl

theorem flagRemoved_status (i : OrderItem) :
    (flagRemoved i).status = i.status := rfl

theorem flagRemoved_isRemoved (i : OrderItem) :
    (flagRemoved i).isRemoved = true := rfl

theorem flagRemoved_quantity (i : OrderItem) :
    (flagRemoved i).quantity = i.quantity := rfl

theorem reduceBy_id (r : Nat) (i : OrderItem) : (reduceBy r i).id = i.id := by
  unfold reduceBy
  split <;> rfl

theorem reduceBy_status (r : Nat) (i : OrderItem) :
    (reduceBy r i).status = i.status := by
  unfold reduceBy
  split <;> rfl

theorem reduceBy_isRemoved (r : Nat) (i : OrderItem) :
    (reduceBy r i).isRemoved = i.isRemoved := by
  unfold reduceBy
  split <;> rfl

theorem reduceBy_quantity (r : Nat) (i : OrderItem) :
    (reduceBy r i).quantity = i.quantity - r := by
  unfold reduceBy
  split
  · omega
  · rfl

/-- Shape of the Case C loop on an arbitrary list: either the deficit
swallows everything (all lines retained flagged), or the list splits into a
fully flagged prefix, one line reduced in place by the leftover `r`, and an
untouched suffix. -/
theorem removeFromSorted_shape (a : Nat) (l : List OrderItem)
    (hq : ∀ i ∈ l, 1 ≤ i.quantity) :
    (sumQty l ≤ a ∧ removeFromSorted a l = l.map flagRemoved) ∨
      ∃ lA x lB r, l = lA ++ x :: lB ∧ a = sumQty lA + r ∧ r < x.quantity ∧
        removeFromSorted a l = lA.map flagRemoved ++ reduceBy r x :: lB := by
  induction l generalizing a with
  | nil =>
    left
    simp [removeFromSorted, sumQty]
  | cons i rest ih =>
    have hq0 : 1 ≤ i.quantity := hq i (List.mem_cons_self _ _)
    have hqr : ∀ j ∈ rest, 1 ≤ j.quantity :=
      fun j hj => hq j (List.mem_cons_of_mem _ hj)
    by_cases h0 : a = 0
    · subst h0
      right
      refine ⟨[], i, rest, 0, by simp, by rw [sumQty_nil], by omega, ?_⟩
      rw [removeFromSorted_zero]
      simp [reduceBy]
    · by_cases h1 : a < i.quantity
      · right
        refine ⟨[], i, rest, a, by simp, by rw [sumQty_nil]; omega, h1, ?_⟩
        simp only [removeFromSorted, h0, if_false, h1, if_true,
          removeFromSorted_zero]
        simp [reduceBy, h0]
      · rcases ih (a - i.quantity) hqr with ⟨hle, heq⟩ |
          ⟨lA, x, lB, r, hsplit, har, hr, heq⟩
        · left
          constructor
          · rw [sumQty_cons]; omega
          · simp only [removeFromSorted, h0, if_false, h1, if_false,
              List.map_cons]
            rw [heq]
            rfl
        · right
          refine ⟨i :: lA, x, lB, r, by rw [hsplit, List.cons_append], ?_,
            hr, ?_⟩
          · rw [sumQty_cons]; omega
          · simp only [removeFromSorted, h0, if_false, h1, if_false,
              List.map_cons]
            rw [heq]
            rfl

theorem out_map_id_of_shape (lA : List OrderItem) (x : OrderItem)
    (lB : List OrderItem) (r : Nat) :
    (lA.map flagRemoved ++ reduceBy r x :: lB).map (fun i => i.id) =
      (lA ++ x :: lB).map (fun i => i.id) := by
  simp only [List.map_append, List.map_cons, List.map_map]
  rw [reduceBy_id]
  rfl

/-- Dichotomy and priority facts about the Case C loop applied to the
priority-sorted existing lines of one key. -/
theorem removeFromSorted_sorted_facts (a : Nat) (E : List OrderItem)
    (hnonrem : ∀ i ∈ E, i.isRemoved = false)
    (hq1 : ∀ i ∈ E, 1 ≤ i.quantity)
    (hndid : (E.map (fun i => i.id)).Nodup) :
    (∀ L ∈ E, ∃ L' ∈ removeFromSorted a (sortByPriority E),
        L'.id = L.id ∧ L'.status = L.status ∧
          ((L'.isRemoved = false ∧ 1 ≤ L'.quantity ∧
              L'.quantity ≤ L.quantity) ∨
            (L'.isRemoved = true ∧ L'.quantity = L.quantity))) ∧
      (∀ L1 ∈ E, ∀ L2 ∈ E,
        statusPriority L1.status < statusPriority L2.status →
        ∀ L2' ∈ removeFromSorted a (sortByPriority E), L2'.id = L2.id →
          (L2'.isRemoved = true ∨ L2'.quantity < L2.quantity) →
          ∀ L1' ∈ removeFromSorted a (sortByPriority E), L1'.id = L1.id →
            L1'.isRemoved = true) := by
  have hperm : List.Perm (sortByPriority E) E :=
    List.perm_insertionSort prioLe E
  have hnonremS : ∀ i ∈ sortByPriority E, i.isRemoved = false :=
    fun i hi => hnonrem i (hperm.mem_iff.mp hi)
  have hq1S : ∀ i ∈ sortByPriority E, 1 ≤ i.quantity :=
    fun i hi => hq1 i (hperm.mem_iff.mp hi)
  have hndidS : ((sortByPriority E).map (fun i => i.id)).Nodup :=
    ((hperm.map (fun i => i.id)).nodup_iff).mpr hndid
  have hsorted : List.Sorted prioLe (sortByPriority E) :=
    List.sorted_insertionSort prioLe E
  rcases removeFromSorted_shape a (sortByPriority E) hq1S with
    ⟨hle, heq⟩ | ⟨lA, x, lB, r, hsplit, har, hr, heq⟩
  · -- every line is flagged
    constructor
    · intro L hL
      have hLS : L ∈ sortByPriority E := hperm.mem_iff.mpr hL
      refine ⟨flagRemoved L, ?_, rfl, rfl, Or.inr ⟨rfl, rfl⟩⟩
      rw [heq]
      exact List.mem_map_of_mem _ hLS
    · intro L1 _ L2 _ _ L2' _ _ _ L1' hL1' _
      rw [heq] at hL1'
      obtain ⟨j, _, rfl⟩ := List.mem_map.mp hL1'
      rfl
  · -- split: flagged prefix, one reduced line, untouched suffix
    have hout_ids : (removeFromSorted a (sortByPriority E)).map
        (fun i => i.id) = (sortByPriority E).map (fun i => i.id) := by
      rw [heq, hsplit]
      exact out_map_id_of_shape lA x lB r
    have hout_nd : ((removeFromSorted a (sortByPriority E)).map
        (fun i => i.id)).Nodup := by
      rw [hout_ids]; exact hndidS
    have huniq : ∀ p ∈ removeFromSorted a (sortByPriority E),
        ∀ q ∈ removeFromSorted a (sortByPriority E), p.id = q.id → p = q :=
      fun p hp q hq hpq => List.inj_on_of_nodup_map hout_nd hp hq hpq
    have hmemA : ∀ L ∈ lA, flagRemoved L ∈
        removeFromSorted a (sortByPriority E) := by
      intro L hL
      rw [heq]
      exact List.mem_append_left _ (List.mem_map_of_mem _ hL)
    have hmemx : reduceBy r x ∈ removeFromSorted a (sortByPriority E) := by
      rw [heq]
      exact List.mem_append_right _ (List.mem_cons_self _ _)
    have hmemB : ∀ L ∈ lB, L ∈ removeFromSorted a (sortByPriority E) := by
      intro L hL
      rw [heq]
      exact List.mem_append_right _ (List.mem_cons_of_mem _ hL)
    have hzone : ∀ L ∈ sortByPriority E, L ∈ lA ∨ L = x ∨ L ∈ lB := by
      intro L hL
      rw [hsplit] at hL
      rcases List.mem_append.mp hL with h | h
      · exact Or.inl h
      · rcases List.mem_cons.mp h with h' | h'
        · exact Or.inr (Or.inl h')
        · exact Or.inr (Or.inr h')
    have hxE : x ∈ sortByPriority E := by
      rw [hsplit]
      exact List.mem_append_right _ (List.mem_cons_self _ _)
    constructor
    · intro L hL
      have hLS : L ∈ sortByPriority E := hperm.mem_iff.mpr hL
      rcases hzone L hLS with hA | rfl | hB
      · exact ⟨flagRemoved L, hmemA L hA, rfl, rfl, Or.inr ⟨rfl, rfl⟩⟩
      · refine ⟨reduceBy r L, hmemx, reduceBy_id r L, reduceBy_status r L,
          Or.inl ?_⟩
        refine ⟨?_, ?_, ?_⟩
        · rw [reduceBy_isRemoved]
          exact hnonrem L hL
        · rw [reduceBy_quantity]
          omega
        · rw [reduceBy_quantity]
          omega
      · exact ⟨L, hmemB L hB, rfl, rfl,
          Or.inl ⟨hnonrem L hL, hq1 L hL, le_refl _⟩⟩
    · intro L1 hL1 L2 hL2 hprio L2' hL2'mem hid2 htouch L1' hL1'mem hid1
      have hL1S : L1 ∈ sortByPriority E := hperm.mem_iff.mpr hL1
      have hL2S : L2 ∈ sortByPriority E := hperm.mem_iff.mpr hL2
      -- pairwise order facts from sortedness
      rw [List.Sorted, hsplit] at hsorted
      obtain ⟨hpA, hpxB, hcross⟩ := List.pairwise_append.mp hsorted
      have hxB : ∀ v ∈ lB, prioLe x v := (List.pairwise_cons.mp hpxB).1
      -- locate L2: it must be in the touched region
      have hL2zone : L2 ∈ lA ∨ (L2 = x ∧ 0 < r) := by
        rcases hzone L2 hL2S with hA | rfl | hB
        · exact Or.inl hA
        · by_cases hr0 : 0 < r
          · exact Or.inr ⟨rfl, hr0⟩
          · exfalso
            have hrz : r = 0 := by omega
            have hLeq : L2' = reduceBy r L2 :=
              huniq L2' hL2'mem (reduceBy r L2) hmemx
                (by rw [reduceBy_id]; exact hid2)
            rw [hLeq] at htouch
            rcases htouch with h | h
            · rw [reduceBy_isRemoved] at h
              rw [hnonrem L2 hL2] at h
              cases h
            · rw [reduceBy_quantity, hrz] at h
              omega
        · exfalso
          have hLeq : L2' = L2 := huniq L2' hL2'mem L2 (hmemB L2 hB) hid2
          rw [hLeq] at htouch
          rcases htouch with h | h
          · rw [hnonrem L2 hL2] at h
            cases h
          · omega
      -- locate L1: it must be in the flagged prefix
      have hL1A : L1 ∈ lA := by
        rcases hzone L1 hL1S with hA | rfl | hB
        · exact hA
        · exfalso
          rcases hL2zone with hA2 | ⟨rfl, _⟩
          · have := hcross L2 hA2 L1 (List.mem_cons_self _ _)
            exact absurd hprio (by simpa [prioLe] using this)
          · exact absurd hprio (by omega)
        · exfalso
          rcases hL2zone with hA2 | ⟨rfl, _⟩
          · have := hcross L2 hA2 L1 (List.mem_cons_of_mem _ hB)
            exact absurd hprio (by simpa [prioLe] using this)
          · have := hxB L1 hB
            exact absurd hprio (by simpa [prioLe] using this)
      have hLeq : L1' = flagRemoved L1 :=
        huniq L1' hL1'mem (flagRemoved L1) (hmemA L1 hL1A)
          (by rw [flagRemoved_id]; exact hid1)
      rw [hLeq]
      rfl

/-! ## Claim C3 — staff-policy removal priority -/

/-- C3: when a staff edit reduces a key below its existing total, every
existing line of the key survives (same id and status) either reduced in
place (not removed, positive, no larger than before) or retained flagged
`isRemoved` at its original quantity; the deficit is taken in the fixed
status order — a line can only be touched (flagged or reduced) if every
line of strictly lower status priority has been fully flagged — and the
number of `quantity_decreased` events equals the number of submitted keys
whose desired quantity is below their existing total, so exactly one event
is logged for this key. -/
theorem staff_decrease_priority_removal (menu : Nat → MenuItemRec)
    (old : List OrderItem) (subs : List SubmittedItem) (startId : Nat)
    (K : Key) (hmenu : ∀ n, (menu n).id = n)
    (hold : ∀ i ∈ old, i.isRemoved = false)
    (hq1 : ∀ i ∈ old, 1 ≤ i.quantity)
    (hnd : (old.map (fun i => i.id)).Nodup)
    (hK : ∃ s ∈ subs, keyOfSub s = K)
    (hdec : subSumQty K subs <
      sumQty (old.filter (fun i => decide (keyOfItem i = K)))) :
    (∀ L ∈ old.filter (fun i => decide (keyOfItem i = K)),
      ∃ L' ∈ (staffReconcile menu old subs startId).items.filter
          (fun i => decide (keyOfItem i = K)),
        L'.id = L.id ∧ L'.status = L.status ∧
          ((L'.isRemoved = false ∧ 1 ≤ L'.quantity ∧
              L'.quantity ≤ L.quantity) ∨
            (L'.isRemoved = true ∧ L'.quantity = L.quantity))) ∧
      (∀ L1 ∈ old.filter (fun i => decide (keyOfItem i = K)),
        ∀ L2 ∈ old.filter (fun i => decide (keyOfItem i = K)),
        statusPriority L1.status < statusPriority L2.status →
        ∀ L2' ∈ (staffReconcile menu old subs startId).items.filter
            (fun i => decide (keyOfItem i = K)), L2'.id = L2.id →
          (L2'.isRemoved = true ∨ L2'.quantity < L2.quantity) →
          ∀ L1' ∈ (staffReconcile menu old subs startId).items.filter
              (fun i => decide (keyOfItem i = K)), L1'.id = L1.id →
            L1'.isRemoved = true) ∧
      ((staffReconcile menu old subs startId).events.countP
          (fun ev => decide (ev.changeType = .quantity_decreased)) =
        (groupIncoming subs).countP (fun en =>
          decide (en.2.1 < sumQty (old.filter
            (fun i => decide (keyOfItem i = en.1)))))) := by
  obtain ⟨nid, d, hfil⟩ :=
    staffReconcile_filter_present menu old subs startId K hmenu hK
  have hEeq : (lookupKey (groupExisting old) K).getD [] =
      old.filter (fun i => decide (keyOfItem i = K)) :=
    groupExisting_lookup old K
  have hout : (staffReconcile menu old subs startId).items.filter
      (fun i => decide (keyOfItem i = K)) =
      removeFromSorted
        (sumQty (old.filter (fun i => decide (keyOfItem i = K))) -
          subSumQty K subs)
        (sortByPriority (old.filter (fun i => decide (keyOfItem i = K)))) := by
    rw [hfil]
    simp only [entryItems]
    rw [if_neg (by rw [hEeq]; omega), if_neg (by rw [hEeq]; omega), hEeq]
  have hEnr : ∀ i ∈ old.filter (fun i => decide (keyOfItem i = K)),
      i.isRemoved = false :=
    fun i hi => hold i (List.mem_filter.mp hi).1
  have hEq1 : ∀ i ∈ old.filter (fun i => decide (keyOfItem i = K)),
      1 ≤ i.quantity :=
    fun i hi => hq1 i (List.mem_filter.mp hi).1
  have hEnd : ((old.filter (fun i => decide (keyOfItem i = K))).map
      (fun i => i.id)).Nodup :=
    List.Nodup.sublist
      (List.Sublist.map (fun i => i.id) (List.filter_sublist old)) hnd
  obtain ⟨hdich, hprio⟩ := removeFromSorted_sorted_facts
    (sumQty (old.filter (fun i => decide (keyOfItem i = K))) -
      subSumQty K subs)
    (old.filter (fun i => decide (keyOfItem i = K))) hEnr hEq1 hEnd
  refine ⟨?_, ?_, ?_⟩
  · rw [hout]
    exact hdich
  · rw [hout]
    exact hprio
  · rw [staffReconcile_events_eq]
    rw [events_countP_of_entries menu (groupExisting old) _
      (fun en => decide (en.2.1 < sumQty
        ((lookupKey (groupExisting old) en.1).getD [])))
      (fun e => by
        rw [entryEvents_countP_dec]
        by_cases h : e.2.1 < sumQty
            ((lookupKey (groupExisting old) e.1).getD [])
        · simp [h]
        · simp [h])]
    apply List.countP_congr
    intro en _
    rw [groupExisting_lookup]

/-- C3 witness: two lines of key `(7, [])` (pending and preparing, 1 each);
staff submits 1: one `quantity_decreased` event is logged, matching the one
reduced key. -/
theorem staff_decrease_priority_removal_witness :
    (staffReconcile menuDish oldTwoSameKey subsDish7One 100).events.countP
        (fun ev => decide (ev.changeType = .quantity_decreased)) =
      (groupIncoming subsDish7One).countP (fun en =>
        decide (en.2.1 < sumQty (oldTwoSameKey.filter
          (fun i => decide (keyOfItem i = en.1))))) :=
  (staff_decrease_priority_removal menuDish oldTwoSameKey subsDish7One 100
    keyDish7 (fun _ => rfl) (by decide) (by decide) (by decide) (by decide)
    (by decide)).2.2

/-! ## Customer-policy lemmas (claim C9) -/

theorem lookupKey_setAssoc {α β : Type} [DecidableEq α]
    (m : List (α × β)) (k : α) (v : β) (k' : α) :
    lookupKey (setAssoc m k v) k' =
      if k = k' then some v else lookupKey m k' := by
  induction m with
  | nil =>
    simp only [setAssoc, lookupKey]
  | cons e rest ih =>
    obtain ⟨k0, v0⟩ := e
    by_cases h : k0 = k
    · subst h
      by_cases h2 : k0 = k'
      · simp [setAssoc, lookupKey, h2]
      · simp [setAssoc, lookupKey, h2]
    · by_cases h2 : k0 = k'
      · subst h2
        have : ¬ (k = k0) := fun hh => h hh.symm
        simp [setAssoc, lookupKey, h, this]
      · simp [setAssoc, lookupKey, h, h2, ih]

theorem foldl_setAssoc_lookup (old : List OrderItem)
    (m : List (Key × OrderItem)) (K : Key) :
    lookupKey (old.foldl (fun m i => setAssoc m (keyOfItem i) i) m) K =
      (old.filter (fun i => decide (keyOfItem i = K))).foldl
        (fun _ i => some i) (lookupKey m K) := by
  induction old generalizing m with
  | nil => simp
  | cons i rest ih =>
    rw [List.foldl_cons, ih, lookupKey_setAssoc, List.filter_cons]
    by_cases h : keyOfItem i = K
    · simp [h]
    · simp [h]

theorem buildExistingItemsMap_lookup_single (old : List OrderItem) (K : Key)
    (e : OrderItem) (hE : old.filter (fun i => decide (keyOfItem i = K)) = [e]) :
    lookupKey (buildExistingItemsMap old) K = some e := by
  rw [buildExistingItemsMap, foldl_setAssoc_lookup, hE]
  rfl

theorem bumpQty_lookup (m : List (Key × OrderItem)) (k : Key) (q : Nat)
    (k' : Key) :
    lookupKey (bumpQty m k q) k' =
      if k = k' then
        (lookupKey m k').map (fun v => { v with quantity := v.quantity + q })
      else lookupKey m k' := by
  induction m with
  | nil => simp only [bumpQty, lookupKey]; split_ifs <;> rfl
  | cons e rest ih =>
    obtain ⟨k0, v0⟩ := e
    by_cases h : k0 = k
    · subst h
      by_cases h2 : k0 = k'
      · subst h2
        simp [bumpQty, lookupKey]
      · simp [bumpQty, lookupKey, h2]
    · by_cases h2 : k0 = k'
      · subst h2
        have hkk : ¬ (k = k0) := fun hh => h hh.symm
        simp [bumpQty, lookupKey, h, hkk]
      · simp [bumpQty, lookupKey, h, h2, ih]

theorem lookupKey_append_single {α β : Type} [DecidableEq α]
    (m : List (α × β)) (k0 : α) (v0 : β) (k' : α) :
    lookupKey (m ++ [(k0, v0)]) k' =
      match lookupKey m k' with
      | some v => some v
      | none => if k0 = k' then some v0 else none := by
  induction m with
  | nil => simp [lookupKey]
  | cons e rest ih =>
    obtain ⟨k1, v1⟩ := e
    by_cases h : k1 = k'
    · simp [lookupKey, h]
    · simp [lookupKey, h, ih]

theorem consolidate_fold_lookup (menu : Nat → MenuItemRec)
    (ex : List (Key × OrderItem)) (K : Key) (e : OrderItem)
    (hexK : lookupKey ex K = some e) :
    ∀ (subs : List SubmittedItem) (m : List (Key × OrderItem)) (nid : Nat),
      lookupKey ((subs.foldl (consolidateStep menu ex) (m, nid)).1) K =
        mergeConsE menu e (lookupKey m K)
          (subs.filter (fun s => decide (keyOfSub s = K))) := by
  intro subs
  induction subs with
  | nil =>
    intro m nid
    cases h : lookupKey m K with
    | none => simp [mergeConsE, h]
    | some v =>
      simp only [List.foldl_nil, List.filter_nil]
      rw [h]
      rfl
  | cons s rest ih =>
    intro m nid
    rw [List.foldl_cons, List.filter_cons]
    by_cases hks : keyOfSub s = K
    · rw [if_pos (by simpa using hks)]
      cases hm : lookupKey m (keyOfSub s) with
      | some v =>
        have hmK : lookupKey m K = some v := by rw [← hks]; exact hm
        simp only [consolidateStep, hm]
        rw [ih]
        rw [bumpQty_lookup, if_pos hks, hmK]
        simp [mergeConsE, sumSubList, Nat.add_assoc]
      | none =>
        have hmK : lookupKey m K = none := by rw [← hks]; exact hm
        have hexs : lookupKey ex (keyOfSub s) = some e := by
          rw [hks]; exact hexK
        simp only [consolidateStep, hm, hexs]
        rw [ih]
        rw [lookupKey_append_single, hmK]
        rw [if_pos hks]
        simp [mergeConsE, consExisting, sumSubList]
    · rw [if_neg (by simpa using hks)]
      simp only [consolidateStep]
      cases hm : lookupKey m (keyOfSub s) with
      | some v =>
        rw [ih]
        rw [bumpQty_lookup, if_neg hks]
      | none =>
        cases hex2 : lookupKey ex (keyOfSub s) with
        | some e2 =>
          rw [ih]
          rw [lookupKey_append_single]
          cases hmK : lookupKey m K with
          | some v => rfl
          | none => rw [if_neg hks]
        | none =>
          rw [ih]
          rw [lookupKey_append_single]
          cases hmK : lookupKey m K with
          | some v => rfl
          | none => rw [if_neg hks]

theorem bumpQty_keys (m : List (Key × OrderItem)) (k : Key) (q : Nat) :
    (bumpQty m k q).map (·.1) = m.map (·.1) := by
  induction m with
  | nil => rfl
  | cons e rest ih =>
    obtain ⟨k0, v0⟩ := e
    by_cases h : k0 = k
    · simp [bumpQty, h]
    · simp [bumpQty, h, ih]

theorem bumpQty_entry_key (m : List (Key × OrderItem)) (k : Key) (q : Nat)
    (hm : ∀ p ∈ m, keyOfItem p.2 = p.1) :
    ∀ p ∈ bumpQty m k q, keyOfItem p.2 = p.1 := by
  induction m with
  | nil => intro p hp; cases hp
  | cons e rest ih =>
    obtain ⟨k0, v0⟩ := e
    have h0 : keyOfItem v0 = k0 := hm _ (List.mem_cons_self _ _)
    have hr : ∀ p ∈ rest, keyOfItem p.2 = p.1 :=
      fun p hp => hm p (List.mem_cons_of_mem _ hp)
    intro p hp
    by_cases h : k0 = k
    · rw [bumpQty, if_pos h] at hp
      rcases List.mem_cons.mp hp with rfl | hp'
      · exact h0
      · exact hr _ hp'
    · rw [bumpQty, if_neg h] at hp
      rcases List.mem_cons.mp hp with rfl | hp'
      · exact h0
      · exact ih hr _ hp'

theorem consolidateStep_keys (menu : Nat → MenuItemRec)
    (ex : List (Key × OrderItem)) (m : List (Key × OrderItem)) (nid : Nat)
    (s : SubmittedItem) :
    ((consolidateStep menu ex (m, nid) s).1).map (·.1) =
      if (lookupKey m (keyOfSub s)).isSome then m.map (·.1)
      else m.map (·.1) ++ [keyOfSub s] := by
  simp only [consolidateStep]
  cases hm : lookupKey m (keyOfSub s) with
  | some v => simp [bumpQty_keys]
  | none =>
    cases hex : lookupKey ex (keyOfSub s) with
    | some e => simp
    | none => simp

theorem consolidateStep_entry_key (menu : Nat → MenuItemRec)
    (ex : List (Key × OrderItem)) (m : List (Key × OrderItem)) (nid : Nat)
    (s : SubmittedItem) (hmenu : ∀ n, (menu n).id = n)
    (hm : ∀ p ∈ m, keyOfItem p.2 = p.1) :
    ∀ p ∈ (consolidateStep menu ex (m, nid) s).1, keyOfItem p.2 = p.1 := by
  simp only [consolidateStep]
  cases hlm : lookupKey m (keyOfSub s) with
  | some v => exact bumpQty_entry_key m (keyOfSub s) s.quantity hm
  | none =>
    cases hex : lookupKey ex (keyOfSub s) with
    | some e =>
      intro p hp
      rcases List.mem_append.mp hp with hp' | hp'
      · exact hm p hp'
      · rw [List.mem_singleton] at hp'
        subst hp'
        show keyOfAddons (menu s.menuItemId).id s.addons = keyOfSub s
        rw [hmenu]
        rfl
    | none =>
      intro p hp
      rcases List.mem_append.mp hp with hp' | hp'
      · exact hm p hp'
      · rw [List.mem_singleton] at hp'
        subst hp'
        show keyOfAddons (menu s.menuItemId).id s.addons = keyOfSub s
        rw [hmenu]
        rfl

theorem consolidate_fold_keys_nodup (menu : Nat → MenuItemRec)
    (ex : List (Key × OrderItem)) (subs : List SubmittedItem) :
    ∀ (m : List (Key × OrderItem)) (nid : Nat),
      (m.map (·.1)).Nodup →
      (((subs.foldl (consolidateStep menu ex) (m, nid)).1).map (·.1)).Nodup := by
  induction subs with
  | nil => intro m nid h; exact h
  | cons s rest ih =>
    intro m nid h
    rw [List.foldl_cons]
    have hnext : (((consolidateStep menu ex (m, nid) s).1).map (·.1)).Nodup := by
      rw [consolidateStep_keys]
      by_cases h2 : (lookupKey m (keyOfSub s)).isSome
      · simpa [h2] using h
      · rw [if_neg h2]
        have hnot : keyOfSub s ∉ m.map (·.1) := by
          rw [← lookupKey_eq_none]
          exact Option.not_isSome_iff_eq_none.mp h2
        rw [List.nodup_append]
        refine ⟨h, List.nodup_singleton _, ?_⟩
        intro x hx hxa
        rw [List.mem_singleton] at hxa
        subst hxa
        exact hnot hx
    exact ih _ _ hnext

theorem consolidate_fold_entry_key (menu : Nat → MenuItemRec)
    (ex : List (Key × OrderItem)) (subs : List SubmittedItem)
    (hmenu : ∀ n, (menu n).id = n) :
    ∀ (m : List (Key × OrderItem)) (nid : Nat),
      (∀ p ∈ m, keyOfItem p.2 = p.1) →
      ∀ p ∈ (subs.foldl (consolidateStep menu ex) (m, nid)).1,
        keyOfItem p.2 = p.1 := by
  induction subs with
  | nil => intro m nid hm; exact hm
  | cons s rest ih =>
    intro m nid hm
    rw [List.foldl_cons]
    exact ih _ _ (consolidateStep_entry_key menu ex m nid s hmenu hm)

theorem map_values_filter (m : List (Key × OrderItem)) (K : Key)
    (hkeys : ∀ p ∈ m, keyOfItem p.2 = p.1)
    (hnd : (m.map (·.1)).Nodup) :
    (m.map (·.2)).filter (fun i => decide (keyOfItem i = K)) =
      match lookupKey m K with
      | some v => [v]
      | none => [] := by
  induction m with
  | nil => simp [lookupKey]
  | cons p rest ih =>
    obtain ⟨k0, v0⟩ := p
    rw [List.map_cons, List.nodup_cons] at hnd
    obtain ⟨hk0, hndr⟩ := hnd
    have h0 : keyOfItem v0 = k0 := hkeys _ (List.mem_cons_self _ _)
    have hkr : ∀ p ∈ rest, keyOfItem p.2 = p.1 :=
      fun p hp => hkeys p (List.mem_cons_of_mem _ hp)
    rw [List.map_cons, List.filter_cons]
    by_cases h : k0 = K
    · subst h
      have hlr : lookupKey rest k0 = none := by
        rw [lookupKey_eq_none]
        exact hk0
      rw [ih hkr hndr, hlr]
      simp [lookupKey, h0]
    · have hne : ¬ (keyOfItem v0 = K) := by rw [h0]; exact h
      rw [ih hkr hndr]
      simp [lookupKey, hne, h]

theorem logCustomerChange_fst_key (old : List OrderItem) (by_ : Actor)
    (item : OrderItem) :
    keyOfItem (logCustomerChange old by_ item).1 = keyOfItem item := by
  unfold logCustomerChange
  cases old.find? (fun o => decide (keyOfItem o = keyOfItem item)) with
  | none => rfl
  | some o =>
    by_cases h1 : o.quantity < item.quantity
    · simp [h1]
      rfl
    · by_cases h2 : item.quantity < o.quantity
      · simp [h1, h2]
      · simp [h1, h2]

theorem filter_map_key_pres (f : OrderItem → OrderItem)
    (hf : ∀ i, keyOfItem (f i) = keyOfItem i) (l : List OrderItem) (K : Key) :
    (l.map f).filter (fun i => decide (keyOfItem i = K)) =
      (l.filter (fun i => decide (keyOfItem i = K))).map f := by
  induction l with
  | nil => rfl
  | cons i rest ih =>
    rw [List.map_cons, List.filter_cons, List.filter_cons]
    by_cases h : keyOfItem i = K
    · rw [if_pos (by simpa [hf i] using h), if_pos (by simpa using h),
        List.map_cons, ih]
    · rw [if_neg (by simpa [hf i] using h), if_neg (by simpa using h), ih]

theorem find?_of_filter_singleton (l : List OrderItem)
    (p : OrderItem → Bool) (e : OrderItem) (h : l.filter p = [e]) :
    l.find? p = some e := by
  induction l with
  | nil => simp at h
  | cons i rest ih =>
    rw [List.filter_cons] at h
    by_cases hp : p i = true
    · rw [if_pos hp] at h
      injection h with h1 h2
      rw [List.find?_cons, hp, h1]
    · rw [if_neg hp] at h
      have hp' : p i = false := by simpa using hp
      rw [List.find?_cons, hp']
      exact ih h

theorem removedStep_filter_preserved (by_ : Actor) (K : Key) :
    ∀ (old ns : List OrderItem) (evs : List ChangeEvent) (nid : Nat),
      (∃ j ∈ ns, keyOfItem j = K) →
      ((old.foldl (removedStep by_) (ns, evs, nid)).1).filter
          (fun i => decide (keyOfItem i = K)) =
        ns.filter (fun i => decide (keyOfItem i = K)) := by
  intro old
  induction old with
  | nil => intro ns evs nid _; rfl
  | cons o rest ih =>
    intro ns evs nid hj
    rw [List.foldl_cons]
    simp only [removedStep]
    by_cases hf : (ns.find?
        (fun i => decide (keyOfItem i = keyOfItem o))).isSome
    · rw [if_pos hf]
      exact ih ns evs nid hj
    · rw [if_neg hf]
      obtain ⟨j, hjm, hjk⟩ := hj
      have hfind : ns.find? (fun i => decide (keyOfItem i = keyOfItem o)) =
          none := Option.not_isSome_iff_eq_none.mp hf
      have hko : ¬ (keyOfItem o = K) := by
        intro hko
        have hnone := List.find?_eq_none.mp hfind j hjm
        rw [hko, ← hjk] at hnone
        simp at hnone
      rw [ih _ _ _ ⟨j, List.mem_append_left _ hjm, hjk⟩]
      rw [List.filter_append]
      have hb : List.filter (fun i => decide (keyOfItem i = K))
          [({ id := nid, menuItemId := o.menuItemId, name := o.name,
              price := o.price, quantity := o.quantity, addons := o.addons,
              specialInstructions := o.specialInstructions, isNew := false,
              isRemoved := true, status := .pending } : OrderItem)] = [] := by
        rw [List.filter_eq_nil_iff]
        intro b hb
        rw [List.mem_singleton] at hb
        subst hb
        simpa using hko
      rw [hb, List.append_nil]

/-! ## Claim C9 — amended theorem

The customer consolidation preserves the existing line's id and status for
every submitted key that already has a line, but `isNew` is set not only
for brand-new keys: it is also set whenever the consolidated quantity
exceeds the prior line's quantity (orders.js 733-734). -/

/-- C9 (amended): for a customer edit and a key with exactly one existing
line `e` that also occurs in the submission, the output contains exactly one
line of that key; it keeps `e`'s id and status, its quantity is the summed
submitted quantity, and `isNew` is true exactly when that quantity exceeds
`e`'s — not only for new keys. -/
theorem customer_identity_preservation_amended (menu : Nat → MenuItemRec)
    (old : List OrderItem) (subs : List SubmittedItem) (startId : Nat)
    (K : Key) (e : OrderItem)
    (hmenu : ∀ n, (menu n).id = n)
    (hE : old.filter (fun i => decide (keyOfItem i = K)) = [e])
    (hK : ∃ s ∈ subs, keyOfSub s = K) :
    ((customerReconcile menu old subs startId).items.filter
        (fun i => decide (keyOfItem i = K))).map
      (fun i => (i.id, i.status, i.quantity, i.isNew)) =
      [(e.id, e.status, subSumQty K subs,
        decide (e.quantity < subSumQty K subs))] := by
  have hlook : lookupKey (buildExistingItemsMap old) K = some e :=
    buildExistingItemsMap_lookup_single old K e hE
  have hconsLookup : lookupKey
      ((consolidate menu (buildExistingItemsMap old) subs startId).1) K =
      mergeConsE menu e none
        (subs.filter (fun s => decide (keyOfSub s = K))) := by
    rw [consolidate]
    rw [consolidate_fold_lookup menu (buildExistingItemsMap old) K e hlook
      subs [] startId]
    rfl
  obtain ⟨s0, hs0, hks0⟩ := hK
  have hmem0 : s0 ∈ subs.filter (fun s => decide (keyOfSub s = K)) :=
    List.mem_filter.mpr ⟨hs0, by simpa using hks0⟩
  obtain ⟨s, r, hf⟩ : ∃ s r,
      subs.filter (fun s => decide (keyOfSub s = K)) = s :: r := by
    cases hff : subs.filter (fun s => decide (keyOfSub s = K)) with
    | nil => rw [hff] at hmem0; cases hmem0
    | cons a l => exact ⟨a, l, rfl⟩
  have hV : lookupKey
      ((consolidate menu (buildExistingItemsMap old) subs startId).1) K =
      some { consExisting menu e s with
             quantity := s.quantity + sumSubList r } := by
    rw [hconsLookup, hf]
    rfl
  have hq : ({ consExisting menu e s with
      quantity := s.quantity + sumSubList r } : OrderItem).quantity =
      subSumQty K subs := by
    rw [subSumQty, hf]
    simp [sumSubList]
  have hconsKeys : ∀ p ∈
      (consolidate menu (buildExistingItemsMap old) subs startId).1,
      keyOfItem p.2 = p.1 := by
    rw [consolidate]
    exact consolidate_fold_entry_key menu (buildExistingItemsMap old) subs
      hmenu [] startId (by intro p hp; cases hp)
  have hconsNodup : (((consolidate menu (buildExistingItemsMap old) subs
      startId).1).map (·.1)).Nodup := by
    rw [consolidate]
    exact consolidate_fold_keys_nodup menu (buildExistingItemsMap old) subs
      [] startId (by simp)
  have hkV : keyOfItem ({ consExisting menu e s with
      quantity := s.quantity + sumSubList r } : OrderItem) = K :=
    hconsKeys _ (lookupKey_mem _ _ _ hV)
  have hconsFilter : (((consolidate menu (buildExistingItemsMap old) subs
      startId).1).map (·.2)).filter (fun i => decide (keyOfItem i = K)) =
      [{ consExisting menu e s with
         quantity := s.quantity + sumSubList r }] := by
    rw [map_values_filter _ K hconsKeys hconsNodup, hV]
  have hfkey : ∀ i : OrderItem,
      keyOfItem (((fun p : OrderItem × List ChangeEvent => p.1) ∘
        logCustomerChange old .customer) i) = keyOfItem i :=
    fun i => logCustomerChange_fst_key old .customer i
  have hitems : (customerReconcile menu old subs startId).items =
      (old.foldl (removedStep .customer)
        (((((consolidate menu (buildExistingItemsMap old) subs
            startId).1.map (·.2)).map
            (logCustomerChange old .customer)).map (·.1)),
          ((((consolidate menu (buildExistingItemsMap old) subs
            startId).1.map (·.2)).map
            (logCustomerChange old .customer)).map (·.2)).flatten,
          (consolidate menu (buildExistingItemsMap old) subs
            startId).2)).1 := rfl
  have hgV : ((fun p : OrderItem × List ChangeEvent => p.1) ∘
      logCustomerChange old .customer)
      ({ consExisting menu e s with
         quantity := s.quantity + sumSubList r } : OrderItem) =
      (if e.quantity < s.quantity + sumSubList r then
        ({ consExisting menu e s with
           quantity := s.quantity + sumSubList r, isNew := true } : OrderItem)
      else
        { consExisting menu e s with
          quantity := s.quantity + sumSubList r }) := by
    show (logCustomerChange old .customer _).1 = _
    unfold logCustomerChange
    have hpred : (fun o : OrderItem => decide (keyOfItem o = keyOfItem
        ({ consExisting menu e s with
           quantity := s.quantity + sumSubList r } : OrderItem))) =
        (fun o : OrderItem => decide (keyOfItem o = K)) := by
      funext o
      rw [hkV]
    rw [hpred, find?_of_filter_singleton old _ e hE]
    by_cases h1 : e.quantity < s.quantity + sumSubList r <;>
      by_cases h2 : s.quantity + sumSubList r < e.quantity <;>
        simp [h1, h2]
  have hlogmap : ((((consolidate menu (buildExistingItemsMap old) subs
      startId).1.map (·.2)).map (logCustomerChange old .customer)).map
        (·.1)).filter (fun i => decide (keyOfItem i = K)) =
      [((fun p : OrderItem × List ChangeEvent => p.1) ∘
        logCustomerChange old .customer)
        { consExisting menu e s with
          quantity := s.quantity + sumSubList r }] := by
    rw [List.map_map]
    rw [filter_map_key_pres _ hfkey]
    rw [hconsFilter]
    rfl
  have hin : ∃ j ∈ (((consolidate menu (buildExistingItemsMap old) subs
      startId).1.map (·.2)).map (logCustomerChange old .customer)).map (·.1),
      keyOfItem j = K := by
    refine ⟨((fun p : OrderItem × List ChangeEvent => p.1) ∘
      logCustomerChange old .customer)
      { consExisting menu e s with
        quantity := s.quantity + sumSubList r }, ?_, ?_⟩
    · have hVmem : ({ consExisting menu e s with
          quantity := s.quantity + sumSubList r } : OrderItem) ∈
          ((consolidate menu (buildExistingItemsMap old) subs
            startId).1.map (·.2)) := by
        apply List.mem_of_mem_filter (p := fun i => decide (keyOfItem i = K))
        rw [hconsFilter]
        exact List.mem_singleton.mpr rfl
      rw [List.map_map]
      exact List.mem_map_of_mem _ hVmem
    · rw [hfkey]
      exact hkV
  rw [hitems]
  rw [removedStep_filter_preserved .customer K old _ _ _ hin]
  rw [hlogmap]
  rw [hgV]
  by_cases h1 : e.quantity < s.quantity + sumSubList r
  · rw [if_pos h1]
    simp only [List.map_cons, List.map_nil]
    have hq' : s.quantity + sumSubList r = subSumQty K subs := by
      rw [← hq]
    rw [hq'] at h1
    simp [consExisting, hq', h1]
  · rw [if_neg h1]
    simp only [List.map_cons, List.map_nil]
    have hq' : s.quantity + sumSubList r = subSumQty K subs := by
      rw [← hq]
    rw [hq'] at h1
    simp [consExisting, hq', h1]

/-- C9 witness: customer raises the single existing line of key `(7, [])`
(id 5, `preparing`, quantity 1) to quantity 2: the one resulting line of the
key keeps id 5 and `preparing`, has quantity 2, and `isNew` is true because
the quantity increased. -/
theorem customer_identity_preservation_amended_witness :
    ((customerReconcile menuDish [mkPlainItem 5 7 1 .preparing]
        subsDish7Two 100).items.filter
        (fun i => decide (keyOfItem i = keyDish7))).map
      (fun i => (i.id, i.status, i.quantity, i.isNew)) =
      [(5, ItemStatus.preparing, subSumQty keyDish7 subsDish7Two,
        decide (1 < subSumQty keyDish7 subsDish7Two))] :=
  customer_identity_preservation_amended menuDish
    [mkPlainItem 5 7 1 .preparing] subsDish7Two 100 keyDish7
    (mkPlainItem 5 7 1 .preparing) (fun _ => rfl) (by decide) (by decide)
